import Mathlib

/-!
The raster pool of `src/decoder/raster_handle.cc`.

A shallow embedding of `RasterPool`, `RasterDeleter` and the two handle types.

* A `Raster *` is modelled by the pointee together with its address (`Raster.addr`);
  a nullable pointer is an `Option Raster`.
* A member function that mutates the pool returns its result together with the
  pool state it leaves behind, so the state after a `throw` is visible.
* `unsigned int` dimensions and `size_t` hashes are natural numbers: the code only
  stores them and compares them for equality, it does no arithmetic on them.
-/

namespace Alfalfa

/-! ## Data model -/

/-- Modelled from the spec: the class `Raster` (declared in the decoder's raster
header, outside this file).  The spec describes it as a frame buffer with a width
and a height fixed at construction, opaque pixel storage, and identity given by its
storage address.  `addr` is that address; `pixels` stands for the whole content. -/
structure Raster where
  addr : Nat
  display_width : Nat
  display_height : Nat
  pixels : List Nat
deriving DecidableEq

/-- The ways a call can fail to return normally. -/
inductive Failure where
  /-- The exception `Unsupported( what )`. -/
  | Unsupported (what : String)
  /-- An `assert` whose condition is false. -/
  | AssertionFailed
  /-- A member access through a null pointer. -/
  | NullDereference
deriving DecidableEq

/-- The text thrown by `make_raster`. -/
def size_changed : String := "raster size has changed"

/-- Modelled from the spec: the class `RasterDeleter` is declared in
`raster_handle.hh`; the spec gives it an optional back-reference to one pool,
absent until bound.  `raster_pool_` is the address of the pool, `none` for
`nullptr`. -/
structure RasterDeleter where
  raster_pool_ : Option Nat
deriving DecidableEq

/-- A value-initialised deleter: no pool. -/
def RasterDeleter.unbound : RasterDeleter := ⟨none⟩

/-- Transcription of `RasterDeleter::get_raster_pool`. -/
def RasterDeleter.get_raster_pool (self : RasterDeleter) : Option Nat :=
  self.raster_pool_

/-- Transcription of `RasterDeleter::set_raster_pool`: `assert( not raster_pool_ )`,
then the assignment. -/
def RasterDeleter.set_raster_pool (self : RasterDeleter) (pool : Nat) :
    Except Failure RasterDeleter :=
  match self.raster_pool_ with
  | some _ => .error .AssertionFailed
  | none => .ok ⟨some pool⟩

/-- Modelled from the spec: `RasterHolder` is the typedef
`unique_ptr<Raster, RasterDeleter>` of `raster_handle.hh`: the owned pointer
(`get()`) and the deleter (`get_deleter()`). -/
structure RasterHolder where
  ptr : Option Raster
  deleter : RasterDeleter
deriving DecidableEq

/-- The class `RasterPool`: the queue `unused_rasters_` (front of the queue = head
of the list) and the map `raster_hashes_`, keyed by raster address. -/
structure RasterPool where
  unused_rasters_ : List RasterHolder
  raster_hashes_ : Nat → Option Nat

/-- A default-constructed pool. -/
def RasterPool.empty : RasterPool := ⟨[], fun _ => none⟩

/-- Transcription of the helper `dequeue`: the front element and the queue without
it.  `none` stands for the empty queue, on which the code never calls it. -/
def dequeue {T : Type} : List T → Option (T × List T)
  | [] => none
  | x :: q => some (x, q)

/-! ## `RasterPool` -/

/-- The last two statements of `make_raster`:
`ret.get_deleter().set_raster_pool( this ); return ret;`. -/
def RasterPool.bind_and_return (this : Nat) (ret : RasterHolder) (self : RasterPool) :
    Except Failure RasterHolder × RasterPool :=
  match ret.deleter.set_raster_pool this with
  | .error e => (.error e, self)
  | .ok d => (.ok ⟨ret.ptr, d⟩, self)

/-- Transcription of `RasterPool::make_raster`.  `alloc w h` is the object that
`new Raster( w, h )` yields in the calling state, `this` the address of the pool.
The result is paired with the pool state after the call. -/
def RasterPool.make_raster (alloc : Nat → Nat → Raster) (this : Nat) (self : RasterPool)
    (display_width display_height : Nat) : Except Failure RasterHolder × RasterPool :=
  match dequeue self.unused_rasters_ with
  | none =>
    -- unused_rasters_.empty(): ret.reset( new Raster( ... ) )
    self.bind_and_return this
      ⟨some (alloc display_width display_height), RasterDeleter.unbound⟩
  | some (front, rest) =>
    match front.ptr with
    | none => (.error .NullDereference, self)
    | some r =>
      if r.display_width ≠ display_width ∨ r.display_height ≠ display_height then
        (.error (.Unsupported size_changed), self)
      else
        -- ret = dequeue( unused_rasters_ )
        RasterPool.bind_and_return this front ⟨rest, self.raster_hashes_⟩

/-- Transcription of `RasterPool::get_hash`.  `hash` is `Raster::hash`, a function
of the raster's current state. -/
def RasterPool.get_hash (hash : Raster → Nat) (self : RasterPool) (raster : Raster) :
    Nat × RasterPool :=
  match self.raster_hashes_ raster.addr with
  | none =>
    (hash raster,
      ⟨self.unused_rasters_,
        fun a => if a = raster.addr then some (hash raster) else self.raster_hashes_ a⟩)
  | some v => (v, self)

/-- Transcription of `RasterPool::free_raster`: the assertion, `emplace` of a new
holder around the pointer (its deleter value-initialised), `erase` of the hash. -/
def RasterPool.free_raster (self : RasterPool) (raster : Option Raster) :
    Except Failure Unit × RasterPool :=
  match raster with
  | none => (.error .AssertionFailed, self)
  | some r =>
    (.ok (),
      ⟨self.unused_rasters_ ++ [⟨some r, RasterDeleter.unbound⟩],
        fun a => if a = r.addr then none else self.raster_hashes_ a⟩)

/-- The class invariant of the queue: `free_raster` is the only code that adds to
`unused_rasters_`, and every holder it adds is non-null with an unbound deleter. -/
def RasterPool.WF (self : RasterPool) : Prop :=
  ∀ x ∈ self.unused_rasters_, x.ptr ≠ none ∧ x.deleter = RasterDeleter.unbound

/-- The size-mismatch condition: the queue is non-empty and the raster at its front
differs from the request in width or in height. -/
def RasterPool.front_mismatch (self : RasterPool) (w h : Nat) : Prop :=
  ∃ front rest r, self.unused_rasters_ = front :: rest ∧ front.ptr = some r ∧
    (r.display_width ≠ w ∨ r.display_height ≠ h)

/-! ## Sequences of calls on one pool -/

/-- One call of a member function of `RasterPool`. -/
inductive PoolCall where
  | make_raster (alloc : Nat → Nat → Raster) (display_width display_height : Nat)
  | get_hash (raster : Raster)
  | free_raster (raster : Option Raster)

/-- The pool state after one call (the value returned is dropped). -/
def RasterPool.call (hash : Raster → Nat) (this : Nat) (self : RasterPool) :
    PoolCall → RasterPool
  | .make_raster alloc w h => (self.make_raster alloc this w h).2
  | .get_hash raster => (self.get_hash hash raster).2
  | .free_raster raster => (self.free_raster raster).2

/-- The pool state after a sequence of calls, first call first. -/
def RasterPool.calls (hash : Raster → Nat) (this : Nat) (self : RasterPool)
    (cs : List PoolCall) : RasterPool :=
  cs.foldl (RasterPool.call hash this) self

/-- The call releases the raster at address `a` to the pool. -/
def PoolCall.releases (a : Nat) : PoolCall → Prop
  | .free_raster (some r) => r.addr = a
  | _ => False

/-! ## A pool and the holders it has handed out -/

/-- The size a holder's raster reports, `none` for an empty holder. -/
def RasterHolder.size (x : RasterHolder) : Option (Nat × Nat) :=
  x.ptr.map fun r => (r.display_width, r.display_height)

/-- All holders in the free list report one and the same size. -/
def RasterPool.same_size (self : RasterPool) : Prop :=
  ∀ x ∈ self.unused_rasters_, ∀ y ∈ self.unused_rasters_, x.size = y.size

/-- A pool together with the holders it has handed out and that have not been
released yet. -/
structure PoolUse where
  pool : RasterPool
  handed_out : List RasterHolder

/-- What a client of one pool does: ask for a raster, write into a raster it
holds, release a raster it holds. -/
inductive PoolUse.Op where
  | make_raster (alloc : Nat → Nat → Raster) (display_width display_height : Nat)
  | write (i : Nat) (pixels : List Nat)
  | release (i : Nat)

/-- The content of the holder's raster is overwritten; address and size stay. -/
def RasterHolder.write (x : RasterHolder) (pixels : List Nat) : RasterHolder :=
  ⟨x.ptr.map fun r => ⟨r.addr, r.display_width, r.display_height, pixels⟩, x.deleter⟩

/-- One step of a client of the pool at address `this`.  A failing `make_raster`
hands nothing out; `release i` passes the `i`-th raster handed out to
`free_raster`. -/
def PoolUse.step (this : Nat) (s : PoolUse) : PoolUse.Op → PoolUse
  | .make_raster alloc w h =>
    match s.pool.make_raster alloc this w h with
    | (.ok ret, p') => ⟨p', s.handed_out ++ [ret]⟩
    | (.error _, p') => ⟨p', s.handed_out⟩
  | .write i pixels =>
    match s.handed_out[i]? with
    | none => s
    | some x => ⟨s.pool, s.handed_out.set i (x.write pixels)⟩
  | .release i =>
    match s.handed_out[i]? with
    | none => s
    | some x => ⟨(s.pool.free_raster x.ptr).2, s.handed_out.eraseIdx i⟩

/-- The empty pool, nothing handed out. -/
def PoolUse.init : PoolUse := ⟨RasterPool.empty, []⟩

/-- What is assumed of the allocator in a step: `new Raster( w, h )` reports the
size it was constructed with. -/
def PoolUse.Op.sound : PoolUse.Op → Prop
  | .make_raster alloc w h =>
    (alloc w h).display_width = w ∧ (alloc w h).display_height = h
  | _ => True

/-- A step is `sound`, and in addition a `make_raster` issued while the free list
is empty asks for the size of the rasters that are still handed out. -/
def PoolUse.Op.one_size (s : PoolUse) : PoolUse.Op → Prop
  | .make_raster alloc w h =>
    ((alloc w h).display_width = w ∧ (alloc w h).display_height = h) ∧
    (s.pool.unused_rasters_ = [] → ∀ x ∈ s.handed_out, x.size = some (w, h))
  | _ => True

/-- The states a client can bring the pool at `this` to, starting from the empty
pool, when every step it takes in state `s` satisfies `ok s`. -/
inductive PoolUse.Reachable (ok : PoolUse → PoolUse.Op → Prop) (this : Nat) :
    PoolUse → Prop where
  | init : PoolUse.Reachable ok this PoolUse.init
  | step (s : PoolUse) (op : PoolUse.Op) :
      PoolUse.Reachable ok this s → ok s op → PoolUse.Reachable ok this (s.step this op)

/-- The state after a sequence of steps from the empty pool, first step first. -/
def PoolUse.run (this : Nat) (ops : List PoolUse.Op) : PoolUse :=
  ops.foldl (PoolUse.step this) PoolUse.init

/-- Every raster of the pool, in the free list or handed out, reports one size. -/
def PoolUse.uniform (s : PoolUse) : Prop :=
  ∃ d, ∀ x, x ∈ s.pool.unused_rasters_ ∨ x ∈ s.handed_out → x.size = some d

/-! ## The deleter and the handles -/

/-- Transcription of `RasterDeleter::operator()`.  `pools` is the memory of pools,
by address: with a pool bound the raster goes to that pool's `free_raster`,
otherwise it is deleted and no pool is touched. -/
def RasterDeleter.call (self : RasterDeleter) (pools : Nat → RasterPool)
    (raster : Option Raster) : Except Failure Unit × (Nat → RasterPool) :=
  match self.raster_pool_ with
  | some pool =>
    (((pools pool).free_raster raster).1,
      Function.update pools pool ((pools pool).free_raster raster).2)
  | none => (.ok (), pools)

/-- The destructor of a `RasterHolder`: the deleter runs on a non-null pointer. -/
def RasterHolder.destroy (self : RasterHolder) (pools : Nat → RasterPool) :
    Except Failure Unit × (Nat → RasterPool) :=
  match self.ptr with
  | none => (.ok (), pools)
  | some r => self.deleter.call pools (some r)

/-- The address of the function-local static pool of `global_raster_pool`. -/
def global_raster_pool : Nat := 0

/-- The class `MutableRasterHandle`: its member `raster_`. -/
structure MutableRasterHandle where
  raster_ : RasterHolder
deriving DecidableEq

/-- Transcription of `MutableRasterHandle::get_holder`. -/
def MutableRasterHandle.get_holder (self : MutableRasterHandle) : RasterHolder :=
  self.raster_

/-- Transcription of the constructor
`MutableRasterHandle( display_width, display_height, raster_pool )`. -/
def MutableRasterHandle.create (alloc : Nat → Nat → Raster) (pools : Nat → RasterPool)
    (display_width display_height : Nat) (raster_pool : Nat) :
    Except Failure MutableRasterHandle × (Nat → RasterPool) :=
  match (pools raster_pool).make_raster alloc raster_pool display_width display_height with
  | (.ok ret, p') => (.ok ⟨ret⟩, Function.update pools raster_pool p')
  | (.error e, p') => (.error e, Function.update pools raster_pool p')

/-- Transcription of the constructor `MutableRasterHandle( display_width, display_height )`,
which delegates to the one above with the global pool. -/
def MutableRasterHandle.create_global (alloc : Nat → Nat → Raster)
    (pools : Nat → RasterPool) (display_width display_height : Nat) :
    Except Failure MutableRasterHandle × (Nat → RasterPool) :=
  MutableRasterHandle.create alloc pools display_width display_height global_raster_pool

/-- Modelled from the spec: writing through a mutable handle (the pixel operations
are outside this file): the content changes, the raster and its deleter stay. -/
def MutableRasterHandle.write (self : MutableRasterHandle) (pixels : List Nat) :
    MutableRasterHandle :=
  ⟨self.raster_.write pixels⟩

/-- Modelled from the spec: the class `RasterHandle` of `raster_handle.hh`, whose
member `raster_` is a `shared_ptr<const Raster>`: the pointer it stores and the
deleter it took over from the holder (`none` for an empty shared pointer). -/
structure RasterHandle where
  ptr : Option Raster
  deleter : Option RasterDeleter
deriving DecidableEq

/-- Transcription of the constructor `RasterHandle( MutableRasterHandle && )`: the
shared pointer is built from the moved holder.  The second component is the
mutable handle as the move leaves it. -/
def RasterHandle.of_mutable (mutable_raster : MutableRasterHandle) :
    RasterHandle × MutableRasterHandle :=
  (match mutable_raster.get_holder.ptr with
    | none => ⟨none, none⟩
    | some r => ⟨some r, some mutable_raster.get_holder.deleter⟩,
   ⟨⟨none, mutable_raster.get_holder.deleter⟩⟩)

/-- Transcription of `RasterHandle::hash`:
`get_deleter( raster_ )->get_raster_pool()->get_hash( raster_.get() )`. -/
def RasterHandle.hash (hash : Raster → Nat) (self : RasterHandle)
    (pools : Nat → RasterPool) : Except Failure Nat × (Nat → RasterPool) :=
  match self.deleter with
  | none => (.error .NullDereference, pools)
  | some d =>
    match d.get_raster_pool with
    | none => (.error .NullDereference, pools)
    | some pool =>
      match self.ptr with
      | none => (.error .NullDereference, pools)
      | some r =>
        (.ok ((pools pool).get_hash hash r).1,
          Function.update pools pool ((pools pool).get_hash hash r).2)

/-- Transcription of `RasterHandle::operator==`: `hash() == other.hash()`. -/
def RasterHandle.eq (hash : Raster → Nat) (self other : RasterHandle)
    (pools : Nat → RasterPool) : Except Failure Bool × (Nat → RasterPool) :=
  match self.hash hash pools with
  | (.error e, pools1) => (.error e, pools1)
  | (.ok a, pools1) =>
    match other.hash hash pools1 with
    | (.error e, pools2) => (.error e, pools2)
    | (.ok b, pools2) => (.ok (decide (a = b)), pools2)

/-- Transcription of `RasterHandle::operator!=`: `not operator==( other )`. -/
def RasterHandle.ne (hash : Raster → Nat) (self other : RasterHandle)
    (pools : Nat → RasterPool) : Except Failure Bool × (Nat → RasterPool) :=
  match self.eq hash other pools with
  | (.error e, pools1) => (.error e, pools1)
  | (.ok b, pools1) => (.ok (!b), pools1)

/-- The last `RasterHandle` sharing a raster is destroyed: the shared pointer runs
the deleter it stores on the pointer it stores. -/
def RasterHandle.release (self : RasterHandle) (pools : Nat → RasterPool) :
    Except Failure Unit × (Nat → RasterPool) :=
  match self.deleter, self.ptr with
  | some d, some r => d.call pools (some r)
  | _, _ => (.ok (), pools)

/-! ## Programs that use the handles -/

/-- The pools, the live mutable handles, and the rasters owned by `RasterHandle`s:
one entry of `shared` for each such raster, however many copies of the handle
share it. -/
structure World where
  pools : Nat → RasterPool
  mutables : List MutableRasterHandle
  shared : List RasterHandle

/-- Every pool empty, no handle. -/
def World.init : World := ⟨fun _ => RasterPool.empty, [], []⟩

/-- What a program does with the handles.  Copying a `RasterHandle` and destroying
a copy that is not the last change nothing in a `World` and are left out. -/
inductive World.Op where
  /-- Construct `MutableRasterHandle( w, h, pool )`. -/
  | acquire (pool : Nat) (alloc : Nat → Nat → Raster) (display_width display_height : Nat)
  /-- Write into the raster of the `i`-th mutable handle. -/
  | write (i : Nat) (pixels : List Nat)
  /-- Move the `i`-th mutable handle into a new `RasterHandle`. -/
  | freeze (i : Nat)
  /-- Call `hash()` on a handle of the `j`-th shared raster. -/
  | hash (j : Nat)
  /-- Compare handles of the `j`-th and `k`-th shared rasters with `==`. -/
  | eq (j k : Nat)
  /-- Destroy the last handle of the `j`-th shared raster. -/
  | drop (j : Nat)
  /-- Destroy the `i`-th mutable handle. -/
  | drop_mutable (i : Nat)

/-- One step of a program; `hash` is `Raster::hash`.  A step that names a handle
that does not exist does nothing. -/
def World.step (hash : Raster → Nat) (w : World) : World.Op → World
  | .acquire pool alloc width height =>
    match MutableRasterHandle.create alloc w.pools width height pool with
    | (.ok m, pools') => ⟨pools', w.mutables ++ [m], w.shared⟩
    | (.error _, pools') => ⟨pools', w.mutables, w.shared⟩
  | .write i pixels =>
    match w.mutables[i]? with
    | none => w
    | some m => ⟨w.pools, w.mutables.set i (m.write pixels), w.shared⟩
  | .freeze i =>
    match w.mutables[i]? with
    | none => w
    | some m => ⟨w.pools, w.mutables.eraseIdx i, w.shared ++ [(RasterHandle.of_mutable m).1]⟩
  | .hash j =>
    match w.shared[j]? with
    | none => w
    | some f => ⟨(f.hash hash w.pools).2, w.mutables, w.shared⟩
  | .eq j k =>
    match w.shared[j]?, w.shared[k]? with
    | some f, some g => ⟨(f.eq hash g w.pools).2, w.mutables, w.shared⟩
    | _, _ => w
  | .drop j =>
    match w.shared[j]? with
    | none => w
    | some f => ⟨(f.release w.pools).2, w.mutables, w.shared.eraseIdx j⟩
  | .drop_mutable i =>
    match w.mutables[i]? with
    | none => w
    | some m => ⟨(m.raster_.destroy w.pools).2, w.mutables.eraseIdx i, w.shared⟩

/-- The state after a sequence of steps, first step first. -/
def World.run (hash : Raster → Nat) (w : World) (ops : List World.Op) : World :=
  ops.foldl (World.step hash) w

/-- What `hash()` returns on a handle of the `j`-th shared raster. -/
def World.hash_at (hash : Raster → Nat) (w : World) (j : Nat) :
    Option (Except Failure Nat) :=
  w.shared[j]?.map fun f => (f.hash hash w.pools).1

/-- No handle of the world owns a raster at address `a`. -/
def World.unused_addr (w : World) (a : Nat) : Prop :=
  (∀ m ∈ w.mutables, ∀ r, m.raster_.ptr = some r → r.addr ≠ a) ∧
  (∀ f ∈ w.shared, ∀ r, f.ptr = some r → r.addr ≠ a)

/-- What is assumed of the allocator in a step: the object that `new Raster( w, h )`
yields lies at an address where no handle's raster lies. -/
def World.Op.fresh (w : World) : World.Op → Prop
  | .acquire _ alloc width height => w.unused_addr (alloc width height).addr
  | _ => True

/-- The states a program can reach from `World.init`. -/
inductive World.Reachable (hash : Raster → Nat) : World → Prop where
  | init : World.Reachable hash World.init
  | step (w : World) (op : World.Op) :
      World.Reachable hash w → op.fresh w → World.Reachable hash (w.step hash op)

/-- The pool a holder is bound to and the address of its raster. -/
def RasterHolder.key (x : RasterHolder) : Option Nat × Option Nat :=
  (x.deleter.raster_pool_, x.ptr.map Raster.addr)

/-- The pool a handle is bound to and the address of its raster. -/
def RasterHandle.key (f : RasterHandle) : Option Nat × Option Nat :=
  (f.deleter.bind RasterDeleter.raster_pool_, f.ptr.map Raster.addr)

/-- The keys of all rasters of pool `pool`: those in its free list, and those of
all handles. -/
def World.keys (w : World) (pool : Nat) : List (Option Nat × Option Nat) :=
  (w.pools pool).unused_rasters_.map (fun x => (some pool, x.ptr.map Raster.addr)) ++
    (w.mutables.map (fun m => m.raster_.key) ++ w.shared.map RasterHandle.key)

/-- The invariant of the reachable states. -/
structure World.Inv (hash : Raster → Nat) (w : World) : Prop where
  free : ∀ pool, ∀ x ∈ (w.pools pool).unused_rasters_,
    ∃ r, x = ⟨some r, RasterDeleter.unbound⟩ ∧ (w.pools pool).raster_hashes_ r.addr = none
  mutables : ∀ m ∈ w.mutables,
    ∃ r pool, m = ⟨⟨some r, ⟨some pool⟩⟩⟩ ∧ (w.pools pool).raster_hashes_ r.addr = none
  shared : ∀ f ∈ w.shared,
    ∃ r pool, f = ⟨some r, some ⟨some pool⟩⟩ ∧
      ((w.pools pool).raster_hashes_ r.addr = none ∨
        (w.pools pool).raster_hashes_ r.addr = some (hash r))
  cached : ∀ pool a, (w.pools pool).raster_hashes_ a ≠ none →
    ∃ f ∈ w.shared, ∃ r, f = ⟨some r, some ⟨some pool⟩⟩ ∧ r.addr = a
  distinct : ∀ pool, (w.keys pool).Nodup

/-! ## Further notions used by the claims -/

/-- The deleter as a call of `set_raster_pool` leaves it: the new binding when the
call returns, the old object when the assertion stops it before the assignment. -/
def RasterDeleter.after_set_raster_pool (self : RasterDeleter) (pool : Nat) : RasterDeleter :=
  match self.set_raster_pool pool with
  | .ok d => d
  | .error _ => self

/-- The deleter after a sequence of `set_raster_pool` calls, first call first. -/
def RasterDeleter.after_calls (self : RasterDeleter) (pools : List Nat) : RasterDeleter :=
  pools.foldl RasterDeleter.after_set_raster_pool self

/-- The pool after `free_raster` has been called on each raster of the list, in
order. -/
def RasterPool.release_all (self : RasterPool) (bs : List Raster) : RasterPool :=
  bs.foldl (fun p b => (p.free_raster (some b)).2) self

/-- The results of `n` successive calls `make_raster( w, h )`, in order, and the pool
they leave. -/
def RasterPool.make_rasters (alloc : Nat → Nat → Raster) (this : Nat) (self : RasterPool)
    (display_width display_height : Nat) :
    Nat → List (Except Failure RasterHolder) × RasterPool
  | 0 => ([], self)
  | n + 1 =>
    (((self.make_raster alloc this display_width display_height).1 ::
        (RasterPool.make_rasters alloc this
          (self.make_raster alloc this display_width display_height).2
          display_width display_height n).1),
      (RasterPool.make_rasters alloc this
        (self.make_raster alloc this display_width display_height).2
        display_width display_height n).2)

/-- Two rasters have the same content: the same size and the same pixels. -/
def Raster.same_content (r r' : Raster) : Prop :=
  r.display_width = r'.display_width ∧ r.display_height = r'.display_height ∧
    r.pixels = r'.pixels

/-- The pointer that `RasterDeleter::operator()` passes to `delete`: the raster
when no pool is bound, nothing when the raster goes to a pool. -/
def RasterDeleter.deleted (self : RasterDeleter) (raster : Option Raster) : Option Raster :=
  match self.raster_pool_ with
  | some _ => none
  | none => raster

/-! ## Sample data -/

/-- A sample `new Raster( w, h )`: address 100, blank content. -/
def sample_alloc (w h : Nat) : Raster := ⟨100, w, h, []⟩

/-- A sample `Raster::hash`: the sum of the pixels. -/
def sample_hash (r : Raster) : Nat := r.pixels.sum

/-- A 4x4 raster at address 7. -/
def raster_4x4 : Raster := ⟨7, 4, 4, [1, 2, 3]⟩

/-- A pool whose free list holds one 4x4 raster and whose cache has one entry, for
another raster. -/
def pool_one_4x4 : RasterPool :=
  ⟨[⟨some raster_4x4, RasterDeleter.unbound⟩], fun a => if a = 9 then some 55 else none⟩

/-- A raster at address 20 whose pixels sum to 11. -/
def raster_at_20 : Raster := ⟨20, 4, 4, [5, 6]⟩

/-- Calls that do not release the raster at address 20. -/
def sample_calls : List PoolCall :=
  [.make_raster sample_alloc 4 4, .get_hash ⟨30, 2, 2, [9]⟩, .get_hash ⟨20, 4, 4, [8, 8]⟩,
   .free_raster (some ⟨31, 4, 4, []⟩), .make_raster sample_alloc 8 8]

/-- A second sample `new Raster( w, h )`: address 200. -/
def sample_alloc_2 (w h : Nat) : Raster := ⟨200, w, h, []⟩

/-- Two requests of different sizes, then both rasters released. -/
def mixed_ops : List PoolUse.Op :=
  [.make_raster sample_alloc 4 4, .make_raster sample_alloc_2 8 8, .release 0, .release 0]

/-- Two requests of one size, then both rasters released. -/
def steady_ops : List PoolUse.Op :=
  [.make_raster sample_alloc 4 4, .make_raster sample_alloc_2 4 4, .release 0, .release 0]

/-- A raster is acquired from pool 0, written, frozen and hashed. -/
def frozen_ops : List World.Op :=
  [.acquire 0 sample_alloc 4 4, .write 0 [1, 2], .freeze 0, .hash 0]

/-- First half of the recycling scenario: acquire 4x4 from `pool`, write `A`,
freeze. -/
def first_cycle (pool : Nat) (alloc : Nat → Nat → Raster) (A : List Nat) : List World.Op :=
  [.acquire pool alloc 4 4, .write 0 A, .freeze 0]

/-- Second half of the recycling scenario: hash, drop the handle, acquire 4x4
again, write `B`, freeze. -/
def second_cycle (pool : Nat) (alloc : Nat → Nat → Raster) (B : List Nat) : List World.Op :=
  [.hash 0, .drop 0, .acquire pool alloc 4 4, .write 0 B, .freeze 0]

/-- Two rasters are acquired from pool 0 and frozen with the same content. -/
def twin_ops : List World.Op :=
  [.acquire 0 sample_alloc 4 4, .write 0 [1, 2], .freeze 0,
   .acquire 0 sample_alloc_2 4 4, .write 0 [1, 2], .freeze 0]

/-- The handle of the first raster frozen by `twin_ops`. -/
def twin_a : RasterHandle := ⟨some ⟨100, 4, 4, [1, 2]⟩, some ⟨some 0⟩⟩

/-- The handle of the second raster frozen by `twin_ops`. -/
def twin_b : RasterHandle := ⟨some ⟨200, 4, 4, [1, 2]⟩, some ⟨some 0⟩⟩

/-- A raster is acquired from pool 0, written, frozen, hashed and dropped. -/
def released_ops : List World.Op :=
  [.acquire 0 sample_alloc 4 4, .write 0 [1, 2], .freeze 0, .hash 0, .drop 0]

/-- Three 4x4 rasters at addresses 1, 2, 3. -/
def three_rasters : List Raster := [⟨1, 4, 4, [1]⟩, ⟨2, 4, 4, [2]⟩, ⟨3, 4, 4, [3]⟩]

/-- A mutable handle on the 4x4 raster, bound to pool 1. -/
def sample_mutable : MutableRasterHandle := ⟨⟨some raster_4x4, ⟨some 1⟩⟩⟩

/-- A raster is handed out, released and asked for again. -/
def recycle_calls : List PoolCall :=
  [.make_raster sample_alloc 4 4, .free_raster (some (sample_alloc 4 4))]

/-! ## Basic facts -/

theorem WF_empty : RasterPool.empty.WF := by
  intro x hx
  simp [RasterPool.empty] at hx

theorem WF_free_raster (p : RasterPool) (hp : p.WF) (raster : Option Raster) :
    (p.free_raster raster).2.WF := by
  cases raster with
  | none => simpa [RasterPool.free_raster] using hp
  | some r =>
    intro x hx
    simp only [RasterPool.free_raster, List.mem_append, List.mem_singleton] at hx
    rcases hx with hx | rfl
    · exact hp x hx
    · simp

theorem WF_make_raster (alloc : Nat → Nat → Raster) (this : Nat) (p : RasterPool)
    (hp : p.WF) (w h : Nat) : (p.make_raster alloc this w h).2.WF := by
  unfold RasterPool.make_raster
  cases hq : p.unused_rasters_ with
  | nil =>
    simp only [dequeue, RasterPool.bind_and_return, RasterDeleter.unbound,
      RasterDeleter.set_raster_pool]
    exact hp
  | cons front rest =>
    simp only [dequeue]
    cases hf : front.ptr with
    | none => exact hp
    | some r =>
      simp only
      split
      · exact hp
      · have hrest : ∀ x ∈ rest, x.ptr ≠ none ∧ x.deleter = RasterDeleter.unbound := by
          intro x hx
          exact hp x (by rw [hq]; exact List.mem_cons_of_mem _ hx)
        unfold RasterPool.bind_and_return
        split <;> exact hrest

/-! ## What `make_raster` does on each path -/

theorem make_raster_of_empty (alloc : Nat → Nat → Raster) (this : Nat) (p : RasterPool)
    (w h : Nat) (hq : p.unused_rasters_ = []) :
    p.make_raster alloc this w h = (.ok ⟨some (alloc w h), ⟨some this⟩⟩, p) := by
  simp [RasterPool.make_raster, hq, dequeue, RasterPool.bind_and_return,
    RasterDeleter.unbound, RasterDeleter.set_raster_pool]

theorem make_raster_of_mismatch (alloc : Nat → Nat → Raster) (this : Nat) (p : RasterPool)
    (w h : Nat) (front : RasterHolder) (rest : List RasterHolder) (r : Raster)
    (hq : p.unused_rasters_ = front :: rest) (hf : front.ptr = some r)
    (hne : r.display_width ≠ w ∨ r.display_height ≠ h) :
    p.make_raster alloc this w h = (.error (.Unsupported size_changed), p) := by
  simp [RasterPool.make_raster, hq, dequeue, hf, hne]

theorem make_raster_of_match (alloc : Nat → Nat → Raster) (this : Nat) (p : RasterPool)
    (front : RasterHolder) (rest : List RasterHolder) (r : Raster)
    (hq : p.unused_rasters_ = front :: rest) (hf : front.ptr = some r)
    (hd : front.deleter = RasterDeleter.unbound) :
    p.make_raster alloc this r.display_width r.display_height
      = (.ok ⟨some r, ⟨some this⟩⟩, ⟨rest, p.raster_hashes_⟩) := by
  simp [RasterPool.make_raster, hq, dequeue, hf, hd, RasterPool.bind_and_return,
    RasterDeleter.unbound, RasterDeleter.set_raster_pool]

theorem make_raster_unsupported_iff (alloc : Nat → Nat → Raster) (this : Nat)
    (p : RasterPool) (w h : Nat) (what : String) :
    (p.make_raster alloc this w h).1 = .error (.Unsupported what) ↔
      what = size_changed ∧ p.front_mismatch w h := by
  unfold RasterPool.make_raster RasterPool.front_mismatch
  cases hq : p.unused_rasters_ with
  | nil =>
    simp [dequeue, RasterPool.bind_and_return, RasterDeleter.unbound,
      RasterDeleter.set_raster_pool]
  | cons front rest =>
    simp only [dequeue]
    cases hf : front.ptr with
    | none => simp [hf]
    | some r =>
      by_cases hne : r.display_width ≠ w ∨ r.display_height ≠ h
      · simp only [hne, if_true]
        constructor
        · intro he
          injection he with he
          injection he with he
          exact ⟨he.symm, front, rest, r, rfl, hf, hne⟩
        · rintro ⟨rfl, _⟩
          rfl
      · simp only [hne, if_false]
        constructor
        · intro he
          unfold RasterPool.bind_and_return at he
          split at he <;> simp at he
          rename_i e heq
          unfold RasterDeleter.set_raster_pool at heq
          split at heq <;> simp at heq
          subst heq
          simp at he
        · rintro ⟨_, f, q, r', hfq, hf', hne'⟩
          injection hfq with h1 h2
          subst h1
          rw [hf] at hf'
          injection hf' with h3
          subst h3
          exact absurd hne' hne

theorem make_raster_ok_cases (alloc : Nat → Nat → Raster) (this : Nat) (p : RasterPool)
    (w h : Nat) (ret : RasterHolder) (p' : RasterPool)
    (hok : p.make_raster alloc this w h = (.ok ret, p')) :
    (p.unused_rasters_ = [] ∧ ret = ⟨some (alloc w h), ⟨some this⟩⟩ ∧ p' = p) ∨
    (∃ front rest r, p.unused_rasters_ = front :: rest ∧ front.ptr = some r ∧
      r.display_width = w ∧ r.display_height = h ∧
      front.deleter = RasterDeleter.unbound ∧
      ret = ⟨some r, ⟨some this⟩⟩ ∧ p' = ⟨rest, p.raster_hashes_⟩) := by
  cases hq : p.unused_rasters_ with
  | nil =>
    left
    rw [make_raster_of_empty alloc this p w h hq] at hok
    injection hok with h1 h2
    injection h1 with h1
    exact ⟨rfl, h1.symm, h2.symm⟩
  | cons front rest =>
    right
    unfold RasterPool.make_raster at hok
    simp only [hq, dequeue] at hok
    cases hf : front.ptr with
    | none => simp [hf] at hok
    | some r =>
      simp only [hf] at hok
      by_cases hne : r.display_width ≠ w ∨ r.display_height ≠ h
      · simp [hne] at hok
      · simp only [hne, if_false] at hok
        have hdim : r.display_width = w ∧ r.display_height = h := by
          constructor
          · by_contra hc
            exact hne (Or.inl hc)
          · by_contra hc
            exact hne (Or.inr hc)
        cases hd : front.deleter with
        | mk pool =>
          cases pool with
          | some q =>
            simp [RasterPool.bind_and_return, RasterDeleter.set_raster_pool, hd] at hok
          | none =>
            simp only [RasterPool.bind_and_return, RasterDeleter.set_raster_pool, hd, hf]
              at hok
            injection hok with h1 h2
            injection h1 with h1
            exact ⟨front, rest, r, rfl, hf, hdim.1, hdim.2, hd, h1.symm, h2.symm⟩

theorem make_raster_ok_of_no_mismatch (alloc : Nat → Nat → Raster) (this : Nat)
    (p : RasterPool) (w h : Nat) (hp : p.WF) (hno : ¬ p.front_mismatch w h) :
    ∃ ret r, (p.make_raster alloc this w h).1 = .ok ret ∧ ret.ptr = some r := by
  cases hq : p.unused_rasters_ with
  | nil =>
    rw [make_raster_of_empty alloc this p w h hq]
    exact ⟨_, alloc w h, rfl, rfl⟩
  | cons front rest =>
    have hfront := hp front (by rw [hq]; exact List.mem_cons_self _ _)
    cases hf : front.ptr with
    | none => exact absurd hf hfront.1
    | some r =>
      have hw : r.display_width = w := by
        by_contra hc
        exact hno ⟨front, rest, r, hq, hf, Or.inl hc⟩
      have hh : r.display_height = h := by
        by_contra hc
        exact hno ⟨front, rest, r, hq, hf, Or.inr hc⟩
      subst hw
      subst hh
      rw [make_raster_of_match alloc this p front rest r hq hf hfront.2]
      exact ⟨_, r, rfl, rfl⟩

theorem make_raster_error_pool (alloc : Nat → Nat → Raster) (this : Nat) (p : RasterPool)
    (w h : Nat) (e : Failure) (p' : RasterPool) (hp : p.WF)
    (hres : p.make_raster alloc this w h = (.error e, p')) : p' = p := by
  by_cases hm : p.front_mismatch w h
  · obtain ⟨front, rest, r, hq, hf, hne⟩ := hm
    rw [make_raster_of_mismatch alloc this p w h front rest r hq hf hne] at hres
    injection hres with _ h2
    exact h2.symm
  · obtain ⟨ret, _, hok, _⟩ := make_raster_ok_of_no_mismatch alloc this p w h hp hm
    rw [hres] at hok
    cases hok

/-! ## The claims about `make_raster`, `get_hash` and `free_raster` -/

/-- C1: whenever `make_raster( w, h )` succeeds, the holder it returns owns a raster
whose `display_width()` is `w` and whose `display_height()` is `h`, on the
allocation path (given that `new Raster( w, h )` reports `w` and `h`) and on the
free-list path alike. -/
theorem make_raster_reports_requested_size (alloc : Nat → Nat → Raster) (this : Nat)
    (p : RasterPool) (w h : Nat) (ret : RasterHolder) (p' : RasterPool)
    (hnew : (alloc w h).display_width = w ∧ (alloc w h).display_height = h)
    (hok : p.make_raster alloc this w h = (.ok ret, p')) :
    ∃ r, ret.ptr = some r ∧ r.display_width = w ∧ r.display_height = h := by
  rcases make_raster_ok_cases alloc this p w h ret p' hok with
    ⟨_, hret, _⟩ | ⟨front, rest, r, _, _, hw, hh, _, hret, _⟩
  · exact ⟨alloc w h, by rw [hret], hnew.1, hnew.2⟩
  · exact ⟨r, by rw [hret], hw, hh⟩

/-- Witness for C1 on both paths: a recycled 4x4 raster and a newly allocated
2x3 raster. -/
theorem make_raster_reports_requested_size_witness :
    (∃ r, (⟨some raster_4x4, ⟨some 1⟩⟩ : RasterHolder).ptr = some r ∧
      r.display_width = 4 ∧ r.display_height = 4) ∧
    (∃ r, (⟨some (sample_alloc 2 3), ⟨some 1⟩⟩ : RasterHolder).ptr = some r ∧
      r.display_width = 2 ∧ r.display_height = 3) :=
  ⟨make_raster_reports_requested_size sample_alloc 1 pool_one_4x4 4 4
      ⟨some raster_4x4, ⟨some 1⟩⟩ ⟨[], pool_one_4x4.raster_hashes_⟩ ⟨rfl, rfl⟩ rfl,
   make_raster_reports_requested_size sample_alloc 1 RasterPool.empty 2 3
      ⟨some (sample_alloc 2 3), ⟨some 1⟩⟩ RasterPool.empty ⟨rfl, rfl⟩ rfl⟩

/-- C2: `make_raster( w, h )` throws `Unsupported` exactly when the free list is
non-empty and the raster at its front differs from the request in width or height;
in every other case, on a pool that satisfies the class invariant of its queue, it
returns a holder that owns a raster. -/
theorem make_raster_fails_iff_front_mismatch (alloc : Nat → Nat → Raster) (this : Nat)
    (p : RasterPool) (w h : Nat) :
    ((p.make_raster alloc this w h).1 = .error (.Unsupported size_changed) ↔
      p.front_mismatch w h) ∧
    (p.WF → ¬ p.front_mismatch w h →
      ∃ ret r, (p.make_raster alloc this w h).1 = .ok ret ∧ ret.ptr = some r) := by
  constructor
  · rw [make_raster_unsupported_iff]
    simp
  · exact make_raster_ok_of_no_mismatch alloc this p w h

/-- Witness for C2: the free list holds one 4x4 raster; a request for 8x8 throws,
a request for 4x4 returns a holder. -/
theorem make_raster_fails_iff_front_mismatch_witness :
    (pool_one_4x4.make_raster sample_alloc 1 8 8).1 = .error (.Unsupported size_changed) ∧
    ∃ ret r, (pool_one_4x4.make_raster sample_alloc 1 4 4).1 = .ok ret ∧ ret.ptr = some r :=
  ⟨(make_raster_fails_iff_front_mismatch sample_alloc 1 pool_one_4x4 8 8).1.2
      ⟨_, [], raster_4x4, rfl, rfl, Or.inl (by decide)⟩,
   (make_raster_fails_iff_front_mismatch sample_alloc 1 pool_one_4x4 4 4).2
      (by
        intro x hx
        simp only [pool_one_4x4, List.mem_singleton] at hx
        subst hx
        exact ⟨by simp, rfl⟩)
      (by
        rintro ⟨front, rest, r, hq, hf, hne⟩
        simp only [pool_one_4x4, List.cons.injEq] at hq
        obtain ⟨rfl, _⟩ := hq
        simp only [Option.some.injEq] at hf
        subst hf
        simp [raster_4x4] at hne)⟩

/-- C3: when `make_raster( w, h )` throws `Unsupported`, the pool is left exactly as
it was: same free list, same hash cache. -/
theorem make_raster_failure_keeps_pool (alloc : Nat → Nat → Raster) (this : Nat)
    (p : RasterPool) (w h : Nat) (what : String)
    (hfail : (p.make_raster alloc this w h).1 = .error (.Unsupported what)) :
    (p.make_raster alloc this w h).2 = p := by
  obtain ⟨_, front, rest, r, hq, hf, hne⟩ :=
    (make_raster_unsupported_iff alloc this p w h what).1 hfail
  rw [make_raster_of_mismatch alloc this p w h front rest r hq hf hne]

/-- Witness for C3: the 8x8 request on the pool holding one 4x4 raster. -/
theorem make_raster_failure_keeps_pool_witness :
    (pool_one_4x4.make_raster sample_alloc 1 8 8).2 = pool_one_4x4 :=
  make_raster_failure_keeps_pool sample_alloc 1 pool_one_4x4 8 8 size_changed rfl

/-- C5: on a pool whose free list is empty, releasing a raster `b` of size `(w, h)`
and then calling `make_raster( w, h )` succeeds, returns a holder that owns `b` itself
(whatever `new` would have produced) bound to this pool, and leaves the free list
empty again. -/
theorem release_then_acquire_round_trip (alloc : Nat → Nat → Raster) (this : Nat)
    (p : RasterPool) (b : Raster) (w h : Nat) (hempty : p.unused_rasters_ = [])
    (hw : b.display_width = w) (hh : b.display_height = h) :
    (p.free_raster (some b)).1 = .ok () ∧
    ∃ p', (p.free_raster (some b)).2.make_raster alloc this w h
        = (.ok ⟨some b, ⟨some this⟩⟩, p') ∧ p'.unused_rasters_ = [] := by
  subst hw
  subst hh
  refine ⟨rfl, ⟨[], (p.free_raster (some b)).2.raster_hashes_⟩, ?_, rfl⟩
  exact make_raster_of_match alloc this _ ⟨some b, RasterDeleter.unbound⟩ [] b
    (by simp [RasterPool.free_raster, hempty]) rfl rfl

/-- Witness for C5: the 4x4 raster released into the empty pool and taken back. -/
theorem release_then_acquire_round_trip_witness :
    (RasterPool.empty.free_raster (some raster_4x4)).1 = .ok () ∧
    ∃ p', (RasterPool.empty.free_raster (some raster_4x4)).2.make_raster sample_alloc 1 4 4
        = (.ok ⟨some raster_4x4, ⟨some 1⟩⟩, p') ∧ p'.unused_rasters_ = [] :=
  release_then_acquire_round_trip sample_alloc 1 RasterPool.empty raster_4x4 4 4 rfl rfl rfl

/-- C6: `get_hash( raster )` either finds an entry for the raster's address, and then
returns that entry and leaves the pool alone whatever `Raster::hash` is (it is not
consulted); or finds none, and then returns `raster->hash()` and leaves the cache
mapping the raster's address to that very value. -/
theorem get_hash_cached_or_computed (hash : Raster → Nat) (p : RasterPool) (r : Raster) :
    (∃ v, p.raster_hashes_ r.addr = some v ∧
      ∀ hash' : Raster → Nat, p.get_hash hash' r = (v, p)) ∨
    (p.raster_hashes_ r.addr = none ∧ (p.get_hash hash r).1 = hash r ∧
      (p.get_hash hash r).2.raster_hashes_ r.addr = some (p.get_hash hash r).1) := by
  cases hc : p.raster_hashes_ r.addr with
  | some v =>
    left
    exact ⟨v, rfl, fun hash' => by simp [RasterPool.get_hash, hc]⟩
  | none =>
    right
    simp [RasterPool.get_hash, hc]

/-- C8: `free_raster( b )` for a non-null `b` returns normally; the new free list is
the old one followed by a holder for `b`; the new cache has no entry for the address
of `b` and agrees with the old cache at every other address. -/
theorem free_raster_appends_and_erases (p : RasterPool) (b : Raster) :
    (p.free_raster (some b)).1 = .ok () ∧
    (p.free_raster (some b)).2.unused_rasters_
      = p.unused_rasters_ ++ [⟨some b, RasterDeleter.unbound⟩] ∧
    (p.free_raster (some b)).2.raster_hashes_ b.addr = none ∧
    ∀ a, a ≠ b.addr → (p.free_raster (some b)).2.raster_hashes_ a = p.raster_hashes_ a := by
  refine ⟨rfl, rfl, ?_, ?_⟩
  · simp [RasterPool.free_raster]
  · intro a ha
    simp [RasterPool.free_raster, ha]

/-! ## Stability of a cached hash -/

theorem get_hash_of_cached (hash : Raster → Nat) (p : RasterPool) (r : Raster) (v : Nat)
    (hc : p.raster_hashes_ r.addr = some v) : p.get_hash hash r = (v, p) := by
  simp [RasterPool.get_hash, hc]

theorem get_hash_caches_result (hash : Raster → Nat) (p : RasterPool) (r : Raster) :
    (p.get_hash hash r).2.raster_hashes_ r.addr = some (p.get_hash hash r).1 := by
  cases hc : p.raster_hashes_ r.addr with
  | some v => simp [RasterPool.get_hash, hc]
  | none => simp [RasterPool.get_hash, hc]

theorem get_hash_keeps_entry (hash : Raster → Nat) (p : RasterPool) (r : Raster)
    (a v : Nat) (hc : p.raster_hashes_ a = some v) :
    (p.get_hash hash r).2.raster_hashes_ a = some v := by
  cases hr : p.raster_hashes_ r.addr with
  | some u => simpa [RasterPool.get_hash, hr] using hc
  | none =>
    have hne : a ≠ r.addr := by
      rintro rfl
      rw [hr] at hc
      cases hc
    simp [RasterPool.get_hash, hr, hne, hc]

theorem make_raster_keeps_cache (alloc : Nat → Nat → Raster) (this : Nat) (p : RasterPool)
    (w h : Nat) : (p.make_raster alloc this w h).2.raster_hashes_ = p.raster_hashes_ := by
  unfold RasterPool.make_raster
  cases p.unused_rasters_ with
  | nil =>
    simp only [dequeue, RasterPool.bind_and_return]
    split <;> rfl
  | cons front rest =>
    simp only [dequeue]
    cases front.ptr with
    | none => rfl
    | some r =>
      simp only
      split
      · rfl
      · unfold RasterPool.bind_and_return
        split <;> rfl

theorem call_keeps_entry (hash : Raster → Nat) (this : Nat) (p : RasterPool) (c : PoolCall)
    (a v : Nat) (hc : p.raster_hashes_ a = some v) (hrel : ¬ c.releases a) :
    (p.call hash this c).raster_hashes_ a = some v := by
  cases c with
  | make_raster alloc w h =>
    simp only [RasterPool.call]
    rw [make_raster_keeps_cache]
    exact hc
  | get_hash raster => exact get_hash_keeps_entry hash p raster a v hc
  | free_raster raster =>
    cases raster with
    | none => exact hc
    | some r =>
      have hne : a ≠ r.addr := fun he => hrel he.symm
      simp [RasterPool.call, RasterPool.free_raster, hne, hc]

theorem calls_keep_entry (hash : Raster → Nat) (this : Nat) (cs : List PoolCall) :
    ∀ (p : RasterPool) (a v : Nat), p.raster_hashes_ a = some v →
      (∀ c ∈ cs, ¬ c.releases a) → (p.calls hash this cs).raster_hashes_ a = some v := by
  induction cs with
  | nil =>
    intro p a v hc _
    exact hc
  | cons c cs ih =>
    intro p a v hc hrel
    have h1 := call_keeps_entry hash this p c a v hc (hrel c (List.mem_cons_self _ _))
    exact ih (p.call hash this c) a v h1 (fun c' hc' => hrel c' (List.mem_cons_of_mem _ hc'))

/-- C7: once `get_hash( r )` has returned `v`, then after any sequence of further
calls on the pool (`make_raster`, `get_hash` on any raster, `free_raster` of other
rasters) in which `r` is not released, every `get_hash` on the raster at the address
of `r` returns `v` without consulting `Raster::hash` and leaves the pool unchanged. -/
theorem get_hash_stable (hash : Raster → Nat) (this : Nat) (p p1 : RasterPool) (r : Raster)
    (v : Nat) (cs : List PoolCall) (hfirst : p.get_hash hash r = (v, p1))
    (hkept : ∀ c ∈ cs, ¬ c.releases r.addr) :
    ∀ (hash' : Raster → Nat) (r' : Raster), r'.addr = r.addr →
      (p1.calls hash this cs).get_hash hash' r' = (v, p1.calls hash this cs) := by
  intro hash' r' haddr
  have h0 : p1.raster_hashes_ r.addr = some v := by
    have h := get_hash_caches_result hash p r
    rw [hfirst] at h
    exact h
  have h1 := calls_keep_entry hash this cs p1 r.addr v h0 hkept
  exact get_hash_of_cached hash' _ r' v (by rw [haddr]; exact h1)

/-- Witness for C7: the hash of the raster at address 20 is first computed as 11;
after five further calls, a `get_hash` for that address returns 11 even when
`Raster::hash` would now give 0. -/
theorem get_hash_stable_witness :
    ((pool_one_4x4.get_hash sample_hash raster_at_20).2.calls sample_hash 1
        sample_calls).get_hash (fun _ => 0) raster_at_20
      = (11, (pool_one_4x4.get_hash sample_hash raster_at_20).2.calls sample_hash 1
          sample_calls) :=
  get_hash_stable sample_hash 1 pool_one_4x4 _ raster_at_20 11 sample_calls rfl
    (by
      intro c hc
      simp only [sample_calls, List.mem_cons, List.mem_singleton, List.not_mem_nil,
        or_false] at hc
      rcases hc with rfl | rfl | rfl | rfl | rfl <;> simp [PoolCall.releases, raster_at_20])
    (fun _ => 0) raster_at_20 rfl

/-! ## The sizes in the free list -/

theorem make_raster_unused_subset (alloc : Nat → Nat → Raster) (this : Nat) (p : RasterPool)
    (w h : Nat) : ∀ x ∈ (p.make_raster alloc this w h).2.unused_rasters_,
      x ∈ p.unused_rasters_ := by
  unfold RasterPool.make_raster
  cases hq : p.unused_rasters_ with
  | nil =>
    simp only [dequeue, RasterPool.bind_and_return]
    split <;> simp [hq]
  | cons front rest =>
    simp only [dequeue]
    cases front.ptr with
    | none => simp [hq]
    | some r =>
      simp only
      split
      · simp [hq]
      · unfold RasterPool.bind_and_return
        split <;> exact fun x hx => List.mem_cons_of_mem _ hx

theorem size_write (x : RasterHolder) (pixels : List Nat) : (x.write pixels).size = x.size := by
  cases x with
  | mk ptr d => cases ptr <;> rfl

theorem step_uniform (this : Nat) (s : PoolUse) (op : PoolUse.Op) (hs : s.uniform)
    (hop : op.one_size s) : (s.step this op).uniform := by
  obtain ⟨d, hd⟩ := hs
  cases op with
  | make_raster alloc w h =>
    obtain ⟨hnew, hout⟩ := hop
    have hsub := make_raster_unused_subset alloc this s.pool w h
    rcases hres : s.pool.make_raster alloc this w h with ⟨res, p'⟩
    rw [hres] at hsub
    cases res with
    | error e =>
      refine ⟨d, ?_⟩
      simp only [PoolUse.step, hres]
      rintro x (hx | hx)
      · exact hd x (Or.inl (hsub x hx))
      · exact hd x (Or.inr hx)
    | ok ret =>
      simp only [PoolUse.step, hres]
      rcases make_raster_ok_cases alloc this s.pool w h ret p' hres with
        ⟨hq, hret, hp'⟩ | ⟨front, rest, r, hq, hf, _, _, _, hret, hp'⟩
      · refine ⟨(w, h), ?_⟩
        rintro x (hx | hx)
        · rw [hp', hq] at hx
          cases hx
        · rcases List.mem_append.1 hx with hx | hx
          · exact hout hq x hx
          · rw [List.mem_singleton.1 hx, hret]
            simp [RasterHolder.size, hnew.1, hnew.2]
      · refine ⟨d, ?_⟩
        have hfront : front.size = some d := hd front (Or.inl (by rw [hq]; simp))
        rintro x (hx | hx)
        · exact hd x (Or.inl (hsub x hx))
        · rcases List.mem_append.1 hx with hx | hx
          · exact hd x (Or.inr hx)
          · rw [List.mem_singleton.1 hx, hret, ← hfront]
            simp [RasterHolder.size, hf]
  | write i pixels =>
    refine ⟨d, ?_⟩
    simp only [PoolUse.step]
    cases hi : s.handed_out[i]? with
    | none => exact hd
    | some x =>
      have hx : x ∈ s.handed_out := List.getElem?_mem hi
      rintro y (hy | hy)
      · exact hd y (Or.inl hy)
      · rcases List.mem_or_eq_of_mem_set hy with hy | rfl
        · exact hd y (Or.inr hy)
        · rw [size_write]
          exact hd x (Or.inr hx)
  | release i =>
    refine ⟨d, ?_⟩
    simp only [PoolUse.step]
    cases hi : s.handed_out[i]? with
    | none => exact hd
    | some x =>
      have hx : x ∈ s.handed_out := List.getElem?_mem hi
      have hxd : x.size = some d := hd x (Or.inr hx)
      cases hptr : x.ptr with
      | none => simp [RasterHolder.size, hptr] at hxd
      | some r =>
        rintro y (hy | hy)
        · simp only [hptr, RasterPool.free_raster, List.mem_append, List.mem_singleton] at hy
          rcases hy with hy | rfl
          · exact hd y (Or.inl hy)
          · rw [← hxd]
            simp [RasterHolder.size, hptr]
        · exact hd y (Or.inr (List.mem_of_mem_eraseIdx hy))

theorem reachable_uniform (this : Nat) (s : PoolUse)
    (hs : PoolUse.Reachable PoolUse.Op.one_size this s) : s.uniform := by
  induction hs with
  | init =>
    refine ⟨(0, 0), ?_⟩
    rintro x (hx | hx) <;> simp [PoolUse.init, RasterPool.empty] at hx
  | step s op _ hop ih => exact step_uniform this s op ih hop

theorem reachable_foldl (ok : PoolUse → PoolUse.Op → Prop) (this : Nat)
    (ops : List PoolUse.Op) : ∀ s, PoolUse.Reachable ok this s →
      (∀ t, ∀ op ∈ ops, ok t op) → PoolUse.Reachable ok this (ops.foldl (PoolUse.step this) s) := by
  induction ops with
  | nil =>
    intro s hs _
    exact hs
  | cons op ops ih =>
    intro s hs hok
    exact ih (s.step this op) (.step s op hs (hok s op (List.mem_cons_self _ _)))
      (fun t op' h => hok t op' (List.mem_cons_of_mem _ h))

/-- C4 as stated fails: from the empty pool, `make_raster( 4, 4 )` and
`make_raster( 8, 8 )` both allocate (the free list is empty each time); once both
rasters are released the free list holds a 4x4 and an 8x8 raster. -/
theorem free_list_mixed_sizes :
    PoolUse.Reachable (fun _ op => op.sound) 1 (PoolUse.run 1 mixed_ops) ∧
    ¬ (PoolUse.run 1 mixed_ops).pool.same_size := by
  constructor
  · refine reachable_foldl _ 1 mixed_ops _ .init ?_
    intro _ op hop
    simp only [mixed_ops, List.mem_cons, List.mem_singleton, List.not_mem_nil,
      or_false] at hop
    rcases hop with rfl | rfl | rfl | rfl <;> simp [PoolUse.Op.sound, sample_alloc,
      sample_alloc_2]
  · intro hsame
    have hlist : (PoolUse.run 1 mixed_ops).pool.unused_rasters_
        = [⟨some ⟨100, 4, 4, []⟩, RasterDeleter.unbound⟩,
           ⟨some ⟨200, 8, 8, []⟩, RasterDeleter.unbound⟩] := by decide
    have h := hsame ⟨some ⟨100, 4, 4, []⟩, RasterDeleter.unbound⟩ (by rw [hlist]; simp)
      ⟨some ⟨200, 8, 8, []⟩, RasterDeleter.unbound⟩ (by rw [hlist]; simp)
    simp [RasterHolder.size] at h

/-- C4, amended: in every state reachable from the empty pool by `make_raster` calls
(successful or failing), writes and releases of rasters handed out, in which no
`make_raster` issued on an empty free list asks for a size other than that of the
rasters still handed out, all rasters in the free list report the same size. -/
theorem free_list_one_size (this : Nat) (s : PoolUse)
    (hs : PoolUse.Reachable PoolUse.Op.one_size this s) : s.pool.same_size := by
  obtain ⟨d, hd⟩ := reachable_uniform this s hs
  intro x hx y hy
  rw [hd x (Or.inl hx), hd y (Or.inl hy)]

/-- Witness for the amended C4: two 4x4 requests, both rasters released; the free
list then holds two 4x4 rasters. -/
theorem free_list_one_size_witness : (PoolUse.run 1 steady_ops).pool.same_size :=
  free_list_one_size 1 (PoolUse.run 1 steady_ops)
    (.step _ (.release 0)
      (.step _ (.release 0)
        (.step _ (.make_raster sample_alloc_2 4 4)
          (.step _ (.make_raster sample_alloc 4 4) .init
            ⟨⟨rfl, rfl⟩, fun _ x hx => by simp [PoolUse.init] at hx⟩)
          ⟨⟨rfl, rfl⟩, fun _ x hx => by
            have hx' : x = ⟨some (sample_alloc 4 4), ⟨some 1⟩⟩ := by
              simpa [PoolUse.step, PoolUse.init, make_raster_of_empty, RasterPool.empty]
                using hx
            rw [hx']
            rfl⟩)
        trivial)
      trivial)

/-! ## Lists -/

theorem getElem?_split {α : Type} (l : List α) : ∀ (i : Nat) (a : α), l[i]? = some a →
    ∃ l1 l2, l = l1 ++ a :: l2 ∧ l.eraseIdx i = l1 ++ l2 ∧
      ∀ b, l.set i b = l1 ++ b :: l2 := by
  induction l with
  | nil =>
    intro i a h
    simp at h
  | cons x xs ih =>
    intro i a h
    cases i with
    | zero =>
      simp at h
      subst h
      exact ⟨[], xs, rfl, rfl, fun b => rfl⟩
    | succ i =>
      simp at h
      obtain ⟨l1, l2, h1, h2, h3⟩ := ih i a h
      refine ⟨x :: l1, l2, ?_, ?_, ?_⟩
      · simp [h1]
      · simp [h2]
      · intro b
        simp [h3]

theorem nodup_insert {α : Type} [DecidableEq α] (A B C : List α) (k : α)
    (h : (A ++ (B ++ C)).Nodup) (hk : k ∉ A ++ (B ++ C)) :
    (A ++ ((B ++ [k]) ++ C)).Nodup := by
  rw [List.nodup_iff_count_le_one] at h ⊢
  intro a
  have h1 := h a
  have h2 := List.count_eq_zero_of_not_mem hk
  simp only [List.count_append, List.count_cons, List.count_nil] at h1 h2 ⊢
  by_cases hka : k = a
  · subst hka
    simp
    omega
  · simp [hka]
    omega

theorem nodup_move_front {α : Type} [DecidableEq α] (A B C : List α) (k : α)
    (h : ((k :: A) ++ (B ++ C)).Nodup) : (A ++ ((B ++ [k]) ++ C)).Nodup := by
  rw [List.nodup_iff_count_le_one] at h ⊢
  intro a
  have h1 := h a
  simp only [List.count_append, List.count_cons, List.count_nil] at h1 ⊢
  omega

/-! ## The invariant of the reachable states -/

theorem world_eta (w : World) : (⟨w.pools, w.mutables, w.shared⟩ : World) = w := by
  cases w
  rfl

theorem inv_init (hash : Raster → Nat) : World.init.Inv hash := by
  refine ⟨?_, ?_, ?_, ?_, ?_⟩
  · intro pool x hx
    simp [World.init, RasterPool.empty] at hx
  · intro m hm
    simp [World.init] at hm
  · intro f hf
    simp [World.init] at hf
  · intro pool a ha
    simp [World.init, RasterPool.empty] at ha
  · intro pool
    simp [World.keys, World.init, RasterPool.empty]

theorem inv_wf (hash : Raster → Nat) (w : World) (hI : w.Inv hash) (pool : Nat) :
    (w.pools pool).WF := by
  intro x hx
  obtain ⟨r, rfl, _⟩ := hI.free pool x hx
  exact ⟨by simp, rfl⟩

theorem key_not_mem_handles (hash : Raster → Nat) (w : World) (hI : w.Inv hash)
    (pool a : Nat) (hfresh : w.unused_addr a) :
    (some pool, some a) ∉
      w.mutables.map (fun m => m.raster_.key) ++ w.shared.map RasterHandle.key := by
  intro hmem
  rcases List.mem_append.1 hmem with hmem | hmem
  · obtain ⟨m, hm, hk⟩ := List.mem_map.1 hmem
    obtain ⟨r, q, rfl, _⟩ := hI.mutables m hm
    simp only [RasterHolder.key, Option.map_some', Prod.mk.injEq, Option.some.injEq] at hk
    exact hfresh.1 _ hm r rfl hk.2
  · obtain ⟨f, hf, hk⟩ := List.mem_map.1 hmem
    obtain ⟨r, q, rfl, _⟩ := hI.shared f hf
    simp only [RasterHandle.key, Option.map_some', Prod.mk.injEq, Option.some.injEq] at hk
    exact hfresh.2 _ hf r rfl hk.2

theorem key_not_mem_other_free (w : World) (pool pool' : Nat) (a : Option Nat)
    (hne : pool ≠ pool') :
    (some pool', a) ∉
      (w.pools pool).unused_rasters_.map (fun x => (some pool, x.ptr.map Raster.addr)) := by
  intro hmem
  obtain ⟨x, _, hk⟩ := List.mem_map.1 hmem
  simp only [Prod.mk.injEq, Option.some.injEq] at hk
  exact hne hk.1

theorem inv_alloc (hash : Raster → Nat) (w : World) (hI : w.Inv hash) (pool : Nat)
    (r : Raster) (hq : (w.pools pool).unused_rasters_ = []) (hfresh : w.unused_addr r.addr) :
    World.Inv hash ⟨w.pools, w.mutables ++ [⟨⟨some r, ⟨some pool⟩⟩⟩], w.shared⟩ := by
  refine ⟨hI.free, ?_, hI.shared, hI.cached, ?_⟩
  · intro m hm
    rcases List.mem_append.1 hm with hm | hm
    · exact hI.mutables m hm
    · refine ⟨r, pool, List.mem_singleton.1 hm, ?_⟩
      by_contra hc
      obtain ⟨f, hf, r', rfl, haddr⟩ := hI.cached pool r.addr hc
      exact hfresh.2 _ hf r' rfl haddr
  · intro pool'
    have hk : (some pool, some r.addr) ∉ w.keys pool' := by
      intro hmem
      rcases List.mem_append.1 hmem with hmem | hmem
      · by_cases hp : pool' = pool
        · subst hp
          rw [hq] at hmem
          cases hmem
        · exact key_not_mem_other_free w pool' pool _ hp hmem
      · exact key_not_mem_handles hash w hI pool r.addr hfresh hmem
    have h := nodup_insert _ _ _ _ (hI.distinct pool') hk
    simpa [World.keys, RasterHolder.key] using h

theorem inv_dequeue (hash : Raster → Nat) (w : World) (hI : w.Inv hash) (pool : Nat)
    (front : RasterHolder) (rest : List RasterHolder) (r : Raster)
    (hq : (w.pools pool).unused_rasters_ = front :: rest) (hf : front.ptr = some r) :
    World.Inv hash
      ⟨Function.update w.pools pool ⟨rest, (w.pools pool).raster_hashes_⟩,
        w.mutables ++ [⟨⟨some r, ⟨some pool⟩⟩⟩], w.shared⟩ := by
  have hcache : ∀ q, (Function.update w.pools pool
      ⟨rest, (w.pools pool).raster_hashes_⟩ q).raster_hashes_ = (w.pools q).raster_hashes_ := by
    intro q
    by_cases hqp : q = pool
    · subst hqp
      simp
    · simp [Function.update_noteq hqp]
  have hfree : ∀ q, ∀ x ∈ (Function.update w.pools pool
      ⟨rest, (w.pools pool).raster_hashes_⟩ q).unused_rasters_,
      x ∈ (w.pools q).unused_rasters_ := by
    intro q x
    by_cases hqp : q = pool
    · subst hqp
      simp only [Function.update_same, hq]
      exact fun hx => List.mem_cons_of_mem _ hx
    · simp [Function.update_noteq hqp]
  have hfront : front = ⟨some r, RasterDeleter.unbound⟩ ∧
      (w.pools pool).raster_hashes_ r.addr = none := by
    obtain ⟨r', hx, hc⟩ := hI.free pool front (by rw [hq]; exact List.mem_cons_self _ _)
    rw [hx] at hf
    injection hf with hf
    subst hf
    exact ⟨hx, hc⟩
  refine ⟨?_, ?_, ?_, ?_, ?_⟩
  · intro q x hx
    simp only [hcache]
    exact hI.free q x (hfree q x hx)
  · intro m hm
    simp only [hcache]
    rcases List.mem_append.1 hm with hm | hm
    · exact hI.mutables m hm
    · exact ⟨r, pool, List.mem_singleton.1 hm, hfront.2⟩
  · intro f hf'
    simp only [hcache]
    exact hI.shared f hf'
  · intro q a ha
    simp only [hcache] at ha
    exact hI.cached q a ha
  · intro q
    have hd := hI.distinct q
    by_cases hqp : q = pool
    · subst hqp
      simp only [World.keys, hq, List.map_cons, hf, Option.map_some'] at hd
      have h := nodup_move_front _ _ _ _ hd
      simpa [World.keys, RasterHolder.key] using h
    · have hd0 := hI.distinct pool
      simp only [World.keys, hq, List.map_cons, hf, Option.map_some', List.cons_append,
        List.nodup_cons] at hd0
      have hk : (some pool, some r.addr) ∉ w.keys q := by
        intro hmem
        rcases List.mem_append.1 hmem with hmem | hmem
        · exact key_not_mem_other_free w q pool _ hqp hmem
        · exact hd0.1 (List.mem_append_right _ hmem)
      have h := nodup_insert _ _ _ _ hd hk
      simpa [World.keys, RasterHolder.key, Function.update_noteq hqp] using h

theorem inv_acquire (hash : Raster → Nat) (w : World) (hI : w.Inv hash) (pool : Nat)
    (alloc : Nat → Nat → Raster) (width height : Nat)
    (hfresh : (World.Op.acquire pool alloc width height).fresh w) :
    (w.step hash (.acquire pool alloc width height)).Inv hash := by
  rcases hres : (w.pools pool).make_raster alloc pool width height with ⟨res, p'⟩
  cases res with
  | error e =>
    have hp := make_raster_error_pool alloc pool _ width height e p' (inv_wf hash w hI pool) hres
    subst hp
    simp only [World.step, MutableRasterHandle.create, hres, Function.update_eq_self,
      world_eta]
    exact hI
  | ok ret =>
    simp only [World.step, MutableRasterHandle.create, hres]
    rcases make_raster_ok_cases alloc pool _ width height ret p' hres with
      ⟨hq, hret, hp'⟩ | ⟨front, rest, r, hq, hf, _, _, _, hret, hp'⟩
    · subst hp'
      subst hret
      rw [Function.update_eq_self]
      exact inv_alloc hash w hI pool _ hq hfresh
    · subst hp'
      subst hret
      exact inv_dequeue hash w hI pool front rest r hq hf

theorem inv_write (hash : Raster → Nat) (w : World) (hI : w.Inv hash) (i : Nat)
    (pixels : List Nat) : (w.step hash (.write i pixels)).Inv hash := by
  simp only [World.step]
  cases hi : w.mutables[i]? with
  | none => exact hI
  | some m =>
    obtain ⟨l1, l2, hM, _, hset⟩ := getElem?_split w.mutables i m hi
    have hm : m ∈ w.mutables := List.getElem?_mem hi
    obtain ⟨r, pool, rfl, hc⟩ := hI.mutables _ hm
    simp only [hset]
    refine ⟨hI.free, ?_, hI.shared, hI.cached, ?_⟩
    · intro m' hm'
      simp only [List.mem_append, List.mem_cons] at hm'
      rcases hm' with hm' | rfl | hm'
      · exact hI.mutables m' (by rw [hM]; simp [hm'])
      · exact ⟨⟨r.addr, r.display_width, r.display_height, pixels⟩, pool, rfl, hc⟩
      · exact hI.mutables m' (by rw [hM]; simp [hm'])
    · intro q
      have hd := hI.distinct q
      simp only [World.keys, hM] at hd
      simpa [World.keys, RasterHolder.key, MutableRasterHandle.write, RasterHolder.write]
        using hd

theorem inv_freeze (hash : Raster → Nat) (w : World) (hI : w.Inv hash) (i : Nat) :
    (w.step hash (.freeze i)).Inv hash := by
  simp only [World.step]
  cases hi : w.mutables[i]? with
  | none => exact hI
  | some m =>
    obtain ⟨l1, l2, hM, herase, _⟩ := getElem?_split w.mutables i m hi
    have hm : m ∈ w.mutables := List.getElem?_mem hi
    obtain ⟨r, pool, rfl, hc⟩ := hI.mutables _ hm
    simp only [herase, RasterHandle.of_mutable, MutableRasterHandle.get_holder]
    refine ⟨hI.free, ?_, ?_, ?_, ?_⟩
    · intro m' hm'
      exact hI.mutables m' (by
        rw [hM]
        rcases List.mem_append.1 hm' with h | h
        · simp [h]
        · simp [h])
    · intro f hf
      rcases List.mem_append.1 hf with hf | hf
      · exact hI.shared f hf
      · exact ⟨r, pool, List.mem_singleton.1 hf, Or.inl hc⟩
    · intro q a ha
      obtain ⟨f, hf, hrest⟩ := hI.cached q a ha
      exact ⟨f, List.mem_append_left _ hf, hrest⟩
    · intro q
      have hd := hI.distinct q
      simp only [World.keys, hM] at hd
      rw [List.nodup_iff_count_le_one] at hd ⊢
      intro k
      have h1 := hd k
      simp only [World.keys, List.map_append, List.map_cons, List.map_nil, List.count_append,
        List.count_cons, List.count_nil, RasterHolder.key, RasterHandle.key,
        Option.map_some', Option.some_bind] at h1 ⊢
      omega

theorem get_hash_pool (hash : Raster → Nat) (p : RasterPool) (r : Raster) :
    (p.get_hash hash r).2 = ⟨p.unused_rasters_,
      fun a => if a = r.addr then some (p.get_hash hash r).1 else p.raster_hashes_ a⟩ := by
  cases hc : p.raster_hashes_ r.addr with
  | none => simp [RasterPool.get_hash, hc]
  | some v =>
    simp only [RasterPool.get_hash, hc]
    cases p with
    | mk u c =>
      congr
      funext a
      by_cases ha : a = r.addr
      · subst ha
        simpa using hc
      · simp [ha]

theorem get_hash_value (hash : Raster → Nat) (p : RasterPool) (r : Raster)
    (hc : p.raster_hashes_ r.addr = none ∨ p.raster_hashes_ r.addr = some (hash r)) :
    (p.get_hash hash r).1 = hash r := by
  rcases hc with hc | hc <;> simp [RasterPool.get_hash, hc]

theorem inv_hash_handle (hash : Raster → Nat) (w : World) (hI : w.Inv hash)
    (f : RasterHandle) (hf : f ∈ w.shared) :
    World.Inv hash ⟨(f.hash hash w.pools).2, w.mutables, w.shared⟩ := by
  obtain ⟨r, pool, rfl, hc⟩ := hI.shared f hf
  have hv := get_hash_value hash (w.pools pool) r hc
  simp only [RasterHandle.hash, RasterDeleter.get_raster_pool, get_hash_pool, hv]
  have hfree : ∀ q, (Function.update w.pools pool
      ⟨(w.pools pool).unused_rasters_,
        fun a => if a = r.addr then some (hash r) else (w.pools pool).raster_hashes_ a⟩
      q).unused_rasters_ = (w.pools q).unused_rasters_ := by
    intro q
    by_cases hqp : q = pool
    · subst hqp
      simp
    · simp [Function.update_noteq hqp]
  have hcache : ∀ q a, (Function.update w.pools pool
      ⟨(w.pools pool).unused_rasters_,
        fun a => if a = r.addr then some (hash r) else (w.pools pool).raster_hashes_ a⟩
      q).raster_hashes_ a
      = if q = pool ∧ a = r.addr then some (hash r) else (w.pools q).raster_hashes_ a := by
    intro q a
    by_cases hqp : q = pool
    · subst hqp
      simp
    · simp [Function.update_noteq hqp, hqp]
  have hkey : (⟨some r, some ⟨some pool⟩⟩ : RasterHandle).key = (some pool, some r.addr) := rfl
  have hmemS : (some pool, some r.addr) ∈ w.shared.map RasterHandle.key := by
    rw [← hkey]
    exact List.mem_map_of_mem _ hf
  refine ⟨?_, ?_, ?_, ?_, ?_⟩
  · intro q x hx
    rw [hfree] at hx
    obtain ⟨rx, rfl, hcx⟩ := hI.free q _ hx
    refine ⟨rx, rfl, ?_⟩
    rw [hcache]
    split
    · rename_i hqa
      obtain ⟨rfl, haddr⟩ := hqa
      exfalso
      have hd := hI.distinct q
      rw [World.keys, List.nodup_append] at hd
      refine hd.2.2 (List.mem_map_of_mem _ hx) (List.mem_append_right _ ?_)
      simpa [haddr] using hmemS
    · exact hcx
  · intro m hm
    obtain ⟨rm, qm, rfl, hcm⟩ := hI.mutables m hm
    refine ⟨rm, qm, rfl, ?_⟩
    rw [hcache]
    split
    · rename_i hqa
      obtain ⟨rfl, haddr⟩ := hqa
      exfalso
      have hd := hI.distinct qm
      rw [World.keys, List.nodup_append] at hd
      have hd2 := hd.2.1
      rw [List.nodup_append] at hd2
      refine hd2.2.2 (List.mem_map_of_mem _ hm) ?_
      simpa [RasterHolder.key, haddr] using hmemS
    · exact hcm
  · intro g hg
    obtain ⟨rg, qg, rfl, hcg⟩ := hI.shared g hg
    refine ⟨rg, qg, rfl, ?_⟩
    rw [hcache]
    split
    · rename_i hqa
      obtain ⟨rfl, haddr⟩ := hqa
      right
      have hd := hI.distinct qg
      rw [World.keys, List.nodup_append] at hd
      have hd2 := hd.2.1
      rw [List.nodup_append] at hd2
      have heq := List.inj_on_of_nodup_map hd2.2.1 hg hf
        (by simp [RasterHandle.key, haddr])
      injection heq with h1 _
      injection h1 with h1
      rw [h1]
    · exact hcg
  · intro q a ha
    rw [hcache] at ha
    split at ha
    · rename_i hqa
      obtain ⟨rfl, rfl⟩ := hqa
      exact ⟨_, hf, r, rfl, rfl⟩
    · exact hI.cached q a ha
  · intro q
    have hd := hI.distinct q
    simpa [World.keys, hfree] using hd

theorem hash_ok (hash : Raster → Nat) (w : World) (hI : w.Inv hash) (f : RasterHandle)
    (hf : f ∈ w.shared) :
    ∃ r, f.ptr = some r ∧ (f.hash hash w.pools).1 = .ok (hash r) := by
  obtain ⟨r, pool, rfl, hc⟩ := hI.shared f hf
  exact ⟨r, rfl, by
    simp [RasterHandle.hash, RasterDeleter.get_raster_pool,
      get_hash_value hash (w.pools pool) r hc]⟩

theorem inv_eq (hash : Raster → Nat) (w : World) (hI : w.Inv hash) (j k : Nat) :
    (w.step hash (.eq j k)).Inv hash := by
  simp only [World.step]
  cases hj : w.shared[j]? with
  | none => exact hI
  | some f =>
    cases hk : w.shared[k]? with
    | none => exact hI
    | some g =>
      have hf : f ∈ w.shared := List.getElem?_mem hj
      have hg : g ∈ w.shared := List.getElem?_mem hk
      have h1 := inv_hash_handle hash w hI f hf
      have h2 := inv_hash_handle hash _ h1 g hg
      obtain ⟨r, _, hok⟩ := hash_ok hash w hI f hf
      obtain ⟨r', _, hok'⟩ := hash_ok hash _ h1 g hg
      simp only at hok'
      have heq : (f.eq hash g w.pools).2 = (g.hash hash (f.hash hash w.pools).2).2 := by
        unfold RasterHandle.eq
        rcases hA : f.hash hash w.pools with ⟨a, pools1⟩
        rw [hA] at hok hok'
        simp only at hok hok'
        subst hok
        rcases hB : g.hash hash pools1 with ⟨b, pools2⟩
        rw [hB] at hok'
        simp only at hok'
        subst hok'
        simp only [hB]
      simp only [heq]
      exact h2

theorem inv_release (hash : Raster → Nat) (w : World) (hI : w.Inv hash) (pool : Nat)
    (r : Raster) (M' : List MutableRasterHandle) (S' : List RasterHandle)
    (hM : ∀ m ∈ M', m ∈ w.mutables) (hS : ∀ f ∈ S', f ∈ w.shared)
    (hkeep : ∀ g ∈ w.shared, g.key ≠ (some pool, some r.addr) → g ∈ S')
    (hperm : (w.mutables.map (fun m => m.raster_.key) ++ w.shared.map RasterHandle.key).Perm
      ((some pool, some r.addr) ::
        (M'.map (fun m => m.raster_.key) ++ S'.map RasterHandle.key))) :
    World.Inv hash
      ⟨Function.update w.pools pool ((w.pools pool).free_raster (some r)).2, M', S'⟩ := by
  have hfree : ∀ q, (Function.update w.pools pool
      ((w.pools pool).free_raster (some r)).2 q).unused_rasters_
      = if q = pool then (w.pools q).unused_rasters_ ++ [⟨some r, RasterDeleter.unbound⟩]
        else (w.pools q).unused_rasters_ := by
    intro q
    by_cases hqp : q = pool
    · subst hqp
      simp [RasterPool.free_raster]
    · simp [Function.update_noteq hqp, hqp]
  have hcache : ∀ q a, (Function.update w.pools pool
      ((w.pools pool).free_raster (some r)).2 q).raster_hashes_ a
      = if q = pool ∧ a = r.addr then none else (w.pools q).raster_hashes_ a := by
    intro q a
    by_cases hqp : q = pool
    · subst hqp
      simp [RasterPool.free_raster]
    · simp [Function.update_noteq hqp, hqp]
  refine ⟨?_, ?_, ?_, ?_, ?_⟩
  · intro q x hx
    simp only [hfree] at hx
    have hold : x ∈ (w.pools q).unused_rasters_ →
        ∃ r', x = ⟨some r', RasterDeleter.unbound⟩ ∧
          (Function.update w.pools pool ((w.pools pool).free_raster (some r)).2
            q).raster_hashes_ r'.addr = none := by
      intro hx'
      obtain ⟨rx, rfl, hcx⟩ := hI.free q _ hx'
      refine ⟨rx, rfl, ?_⟩
      rw [hcache]
      split
      · rfl
      · exact hcx
    by_cases hqp : q = pool
    · simp only [hqp, if_true, List.mem_append, List.mem_singleton] at hx
      rcases hx with hx | rfl
      · exact hold (by rw [hqp]; exact hx)
      · refine ⟨r, rfl, ?_⟩
        rw [hcache]
        simp [hqp]
    · simp only [hqp, if_false] at hx
      exact hold hx
  · intro m hm
    obtain ⟨rm, qm, rfl, hcm⟩ := hI.mutables m (hM m hm)
    refine ⟨rm, qm, rfl, ?_⟩
    rw [hcache]
    split
    · rfl
    · exact hcm
  · intro g hg
    obtain ⟨rg, qg, rfl, hcg⟩ := hI.shared g (hS g hg)
    refine ⟨rg, qg, rfl, ?_⟩
    rw [hcache]
    split
    · exact Or.inl rfl
    · exact hcg
  · intro q a ha
    rw [hcache] at ha
    split at ha
    · exact absurd rfl ha
    · rename_i hqa
      obtain ⟨g, hg, rg, rfl, haddr⟩ := hI.cached q a ha
      refine ⟨_, hkeep _ hg ?_, rg, rfl, haddr⟩
      intro hk
      simp only [RasterHandle.key, Option.some_bind, Option.map_some', Prod.mk.injEq,
        Option.some.injEq] at hk
      exact hqa ⟨hk.1, haddr.symm.trans hk.2⟩
  · intro q
    have hd := hI.distinct q
    rw [List.nodup_iff_count_le_one] at hd ⊢
    intro k
    have h1 := hd k
    have h2 := hperm.count_eq k
    simp only [World.keys, hfree, List.count_append, List.count_cons] at h1 h2 ⊢
    by_cases hqp : q = pool
    · subst hqp
      simp only [if_true, List.map_append, List.map_cons, List.map_nil, List.count_append,
        List.count_cons, List.count_nil, Option.map_some']
      omega
    · simp only [hqp, if_false]
      omega

theorem inv_drop (hash : Raster → Nat) (w : World) (hI : w.Inv hash) (j : Nat) :
    (w.step hash (.drop j)).Inv hash := by
  simp only [World.step]
  cases hj : w.shared[j]? with
  | none => exact hI
  | some f =>
    obtain ⟨l1, l2, hS, herase, _⟩ := getElem?_split w.shared j f hj
    have hf : f ∈ w.shared := List.getElem?_mem hj
    obtain ⟨r, pool, rfl, _⟩ := hI.shared _ hf
    simp only [herase, RasterHandle.release, RasterDeleter.call]
    refine inv_release hash w hI pool r w.mutables (l1 ++ l2) (fun _ h => h) ?_ ?_ ?_
    · intro g hg
      rw [hS]
      rcases List.mem_append.1 hg with h | h
      · simp [h]
      · simp [h]
    · intro g hg hk
      rw [hS] at hg
      simp only [List.mem_append, List.mem_cons] at hg
      rcases hg with h | rfl | h
      · exact List.mem_append_left _ h
      · exact absurd rfl hk
      · exact List.mem_append_right _ h
    · rw [hS, List.perm_iff_count]
      intro k
      simp only [List.map_append, List.map_cons, List.count_append, List.count_cons,
        RasterHandle.key, Option.some_bind, Option.map_some']
      omega

theorem inv_drop_mutable (hash : Raster → Nat) (w : World) (hI : w.Inv hash) (i : Nat) :
    (w.step hash (.drop_mutable i)).Inv hash := by
  simp only [World.step]
  cases hi : w.mutables[i]? with
  | none => exact hI
  | some m =>
    obtain ⟨l1, l2, hM, herase, _⟩ := getElem?_split w.mutables i m hi
    have hm : m ∈ w.mutables := List.getElem?_mem hi
    obtain ⟨r, pool, rfl, _⟩ := hI.mutables _ hm
    simp only [herase, RasterHolder.destroy, RasterDeleter.call]
    refine inv_release hash w hI pool r (l1 ++ l2) w.shared ?_ (fun _ h => h)
      (fun _ h _ => h) ?_
    · intro g hg
      rw [hM]
      rcases List.mem_append.1 hg with h | h
      · simp [h]
      · simp [h]
    · rw [hM, List.perm_iff_count]
      intro k
      simp only [List.map_append, List.map_cons, List.count_append, List.count_cons,
        RasterHolder.key, Option.map_some']
      omega

theorem inv_step (hash : Raster → Nat) (w : World) (op : World.Op) (hI : w.Inv hash)
    (hop : op.fresh w) : (w.step hash op).Inv hash := by
  cases op with
  | acquire pool alloc width height => exact inv_acquire hash w hI pool alloc width height hop
  | write i pixels => exact inv_write hash w hI i pixels
  | freeze i => exact inv_freeze hash w hI i
  | hash j =>
    simp only [World.step]
    cases hj : w.shared[j]? with
    | none => exact hI
    | some f => exact inv_hash_handle hash w hI f (List.getElem?_mem hj)
  | eq j k => exact inv_eq hash w hI j k
  | drop j => exact inv_drop hash w hI j
  | drop_mutable i => exact inv_drop_mutable hash w hI i

theorem reachable_inv (hash : Raster → Nat) (w : World) (hw : World.Reachable hash w) :
    w.Inv hash := by
  induction hw with
  | init => exact inv_init hash
  | step w op _ hop ih => exact inv_step hash w op ih hop

/-! ## The claims about the hash cache in reachable states -/

/-- C9: in every state reachable through the handles (acquire, write, freeze,
`hash`, `==`, destruction of a mutable handle or of the last `RasterHandle`), no
raster in a pool's free list and no raster owned by a `MutableRasterHandle` has an
entry in the hash cache of its pool, and every entry of a pool's cache belongs to a
raster owned by a `RasterHandle` bound to that pool. -/
theorem cache_only_for_shared (hash : Raster → Nat) (w : World)
    (hw : World.Reachable hash w) :
    (∀ pool, ∀ x ∈ (w.pools pool).unused_rasters_, ∀ r, x.ptr = some r →
      (w.pools pool).raster_hashes_ r.addr = none) ∧
    (∀ m ∈ w.mutables, ∀ r pool, m.raster_.ptr = some r →
      m.raster_.deleter.raster_pool_ = some pool →
      (w.pools pool).raster_hashes_ r.addr = none) ∧
    (∀ pool a, (w.pools pool).raster_hashes_ a ≠ none →
      ∃ f ∈ w.shared, ∃ r, f.ptr = some r ∧ r.addr = a ∧ f.deleter = some ⟨some pool⟩) := by
  have hI := reachable_inv hash w hw
  refine ⟨?_, ?_, ?_⟩
  · intro pool x hx r hr
    obtain ⟨r', rfl, hc⟩ := hI.free pool x hx
    injection hr with hr
    subst hr
    exact hc
  · intro m hm r pool hr hp
    obtain ⟨r', pool', rfl, hc⟩ := hI.mutables m hm
    injection hr with hr
    injection hp with hp
    subst hr
    subst hp
    exact hc
  · intro pool a ha
    obtain ⟨f, hf, r, rfl, haddr⟩ := hI.cached pool a ha
    exact ⟨_, hf, r, rfl, haddr, rfl⟩

/-- Witness for C9: the state after a raster has been acquired from pool 0, written,
frozen and hashed; pool 0 then caches a hash for address 100, and that entry belongs
to the frozen raster. -/
theorem cache_only_for_shared_witness :
    ((World.run sample_hash World.init frozen_ops).pools 0).raster_hashes_ 100 = some 3 ∧
    ∃ f ∈ (World.run sample_hash World.init frozen_ops).shared,
      ∃ r, f.ptr = some r ∧ r.addr = 100 ∧ f.deleter = some ⟨some 0⟩ :=
  ⟨by decide,
   (cache_only_for_shared sample_hash (World.run sample_hash World.init frozen_ops)
    (.step _ (.hash 0)
      (.step _ (.freeze 0)
        (.step _ (.write 0 [1, 2])
          (.step _ (.acquire 0 sample_alloc 4 4) .init
            ⟨fun _ hm => by simp [World.init] at hm,
              fun _ hf => by simp [World.init] at hf⟩)
          trivial)
        trivial)
      trivial)).2.2 0 100 (by decide)⟩

/-! ## Steps computed -/

theorem step_acquire_fresh (hash : Raster → Nat) (w : World) (pool : Nat)
    (alloc : Nat → Nat → Raster) (width height : Nat)
    (hq : (w.pools pool).unused_rasters_ = []) :
    w.step hash (.acquire pool alloc width height)
      = ⟨w.pools, w.mutables ++ [⟨⟨some (alloc width height), ⟨some pool⟩⟩⟩], w.shared⟩ := by
  simp only [World.step, MutableRasterHandle.create,
    make_raster_of_empty alloc pool _ width height hq, Function.update_eq_self]

theorem step_acquire_recycled (hash : Raster → Nat) (w : World) (pool : Nat)
    (alloc : Nat → Nat → Raster) (r : Raster) (rest : List RasterHolder)
    (hq : (w.pools pool).unused_rasters_ = ⟨some r, RasterDeleter.unbound⟩ :: rest) :
    w.step hash (.acquire pool alloc r.display_width r.display_height)
      = ⟨Function.update w.pools pool ⟨rest, (w.pools pool).raster_hashes_⟩,
          w.mutables ++ [⟨⟨some r, ⟨some pool⟩⟩⟩], w.shared⟩ := by
  simp only [World.step, MutableRasterHandle.create,
    make_raster_of_match alloc pool _ _ rest r hq rfl rfl]

theorem run_first_cycle (hash : Raster → Nat) (pool : Nat) (alloc : Nat → Nat → Raster)
    (A : List Nat) :
    World.run hash World.init (first_cycle pool alloc A)
      = ⟨World.init.pools, [],
          [⟨some ⟨(alloc 4 4).addr, (alloc 4 4).display_width, (alloc 4 4).display_height, A⟩,
            some ⟨some pool⟩⟩]⟩ := by
  simp only [World.run, first_cycle, List.foldl]
  rw [step_acquire_fresh hash World.init pool alloc 4 4 rfl]
  simp [World.step, World.init, MutableRasterHandle.write, RasterHolder.write,
    RasterHandle.of_mutable, MutableRasterHandle.get_holder]

theorem run_second_cycle (hash : Raster → Nat) (pool : Nat) (alloc : Nat → Nat → Raster)
    (a : Nat) (A B : List Nat) :
    World.run hash ⟨World.init.pools, [], [⟨some ⟨a, 4, 4, A⟩, some ⟨some pool⟩⟩]⟩
        (second_cycle pool alloc B)
      = ⟨Function.update World.init.pools pool ⟨[], fun _ => none⟩, [],
          [⟨some ⟨a, 4, 4, B⟩, some ⟨some pool⟩⟩]⟩ := by
  simp only [World.run, second_cycle, List.foldl]
  have h1 : World.step hash ⟨World.init.pools, [], [⟨some ⟨a, 4, 4, A⟩, some ⟨some pool⟩⟩]⟩
      (.hash 0)
      = ⟨Function.update World.init.pools pool
          ⟨[], fun x => if x = a then some (hash ⟨a, 4, 4, A⟩) else none⟩, [],
          [⟨some ⟨a, 4, 4, A⟩, some ⟨some pool⟩⟩]⟩ := by
    simp [World.step, RasterHandle.hash, RasterDeleter.get_raster_pool, RasterPool.get_hash,
      World.init, RasterPool.empty]
  rw [h1]
  have h2 : World.step hash ⟨Function.update World.init.pools pool
          ⟨[], fun x => if x = a then some (hash ⟨a, 4, 4, A⟩) else none⟩, [],
          [⟨some ⟨a, 4, 4, A⟩, some ⟨some pool⟩⟩]⟩ (.drop 0)
      = ⟨Function.update World.init.pools pool
          ⟨[⟨some ⟨a, 4, 4, A⟩, RasterDeleter.unbound⟩], fun _ => none⟩, [], []⟩ := by
    have hc : (fun x => if x = a then (none : Option Nat)
        else if x = a then some (hash ⟨a, 4, 4, A⟩) else none) = fun _ => none := by
      funext x
      by_cases hx : x = a <;> simp [hx]
    simp [World.step, RasterHandle.release, RasterDeleter.call, RasterPool.free_raster, hc]
  rw [h2]
  have h3 := step_acquire_recycled hash ⟨Function.update World.init.pools pool
          ⟨[⟨some ⟨a, 4, 4, A⟩, RasterDeleter.unbound⟩], fun _ => none⟩, [], []⟩ pool alloc
          ⟨a, 4, 4, A⟩ [] (by simp)
  simp only at h3
  rw [h3]
  simp [World.step, MutableRasterHandle.write, RasterHolder.write,
    RasterHandle.of_mutable, MutableRasterHandle.get_holder]

/-- C10: starting from empty pools, acquire 4x4, write `A`, freeze, `hash()`, drop,
acquire 4x4 again, write `B`, freeze, `hash()`: the free list is empty at the start
and at the end, the second raster is the first one's storage, the first hash is
`Raster::hash` of the content `A` and the second is `Raster::hash` of the content
`B`, so they differ whenever those differ.  In general, in every reachable state
`hash()` on a `RasterHandle` returns `Raster::hash` of the current content of its
raster. -/
theorem no_stale_hash (hash : Raster → Nat) :
    (∀ (pool : Nat) (alloc alloc' : Nat → Nat → Raster) (A B : List Nat),
      (alloc 4 4).display_width = 4 → (alloc 4 4).display_height = 4 →
      (World.init.pools pool).unused_rasters_ = [] ∧
      (World.run hash World.init (first_cycle pool alloc A)).hash_at hash 0
        = some (.ok (hash ⟨(alloc 4 4).addr, 4, 4, A⟩)) ∧
      (World.run hash (World.run hash World.init (first_cycle pool alloc A))
          (second_cycle pool alloc' B)).shared
        = [⟨some ⟨(alloc 4 4).addr, 4, 4, B⟩, some ⟨some pool⟩⟩] ∧
      (World.run hash (World.run hash World.init (first_cycle pool alloc A))
          (second_cycle pool alloc' B)).hash_at hash 0
        = some (.ok (hash ⟨(alloc 4 4).addr, 4, 4, B⟩)) ∧
      (((World.run hash (World.run hash World.init (first_cycle pool alloc A))
          (second_cycle pool alloc' B)).step hash (.hash 0)).pools pool).unused_rasters_
        = [] ∧
      (hash ⟨(alloc 4 4).addr, 4, 4, A⟩ ≠ hash ⟨(alloc 4 4).addr, 4, 4, B⟩ →
        (World.run hash (World.run hash World.init (first_cycle pool alloc A))
            (second_cycle pool alloc' B)).hash_at hash 0
          ≠ (World.run hash World.init (first_cycle pool alloc A)).hash_at hash 0)) ∧
    (∀ w, World.Reachable hash w → ∀ f ∈ w.shared,
      ∃ r, f.ptr = some r ∧ (f.hash hash w.pools).1 = .ok (hash r)) := by
  constructor
  · intro pool alloc alloc' A B hw hh
    have e1 := run_first_cycle hash pool alloc A
    rw [hw, hh] at e1
    rw [e1, run_second_cycle hash pool alloc' _ A B]
    have hA : World.hash_at hash
        ⟨World.init.pools, [], [⟨some ⟨(alloc 4 4).addr, 4, 4, A⟩, some ⟨some pool⟩⟩]⟩ 0
        = some (.ok (hash ⟨(alloc 4 4).addr, 4, 4, A⟩)) := by
      simp [World.hash_at, RasterHandle.hash, RasterDeleter.get_raster_pool,
        RasterPool.get_hash, World.init, RasterPool.empty]
    have hB : World.hash_at hash
        ⟨Function.update World.init.pools pool ⟨[], fun _ => none⟩, [],
          [⟨some ⟨(alloc 4 4).addr, 4, 4, B⟩, some ⟨some pool⟩⟩]⟩ 0
        = some (.ok (hash ⟨(alloc 4 4).addr, 4, 4, B⟩)) := by
      simp [World.hash_at, RasterHandle.hash, RasterDeleter.get_raster_pool,
        RasterPool.get_hash]
    refine ⟨rfl, hA, rfl, hB, ?_, ?_⟩
    · simp [World.step, RasterHandle.hash, RasterDeleter.get_raster_pool,
        RasterPool.get_hash]
    · intro hne
      rw [hA, hB]
      intro heq
      injection heq with heq
      injection heq with heq
      exact hne heq.symm
  · intro w hw f hf
    exact hash_ok hash w (reachable_inv hash w hw) f hf

/-- Witness for C10: with the pixel sum as `Raster::hash`, content `[1]` and then
content `[2]` in the same storage hash to 1 and to 2. -/
theorem no_stale_hash_witness :
    (World.run sample_hash World.init (first_cycle 0 sample_alloc [1])).hash_at sample_hash 0
      = some (.ok 1) ∧
    (World.run sample_hash (World.run sample_hash World.init (first_cycle 0 sample_alloc [1]))
        (second_cycle 0 sample_alloc_2 [2])).hash_at sample_hash 0 = some (.ok 2) :=
  ⟨((no_stale_hash sample_hash).1 0 sample_alloc sample_alloc_2 [1] [2] rfl rfl).2.1,
   ((no_stale_hash sample_hash).1 0 sample_alloc sample_alloc_2 [1] [2] rfl rfl).2.2.2.1⟩

/-! ## Equality of handles -/

theorem hash_bound (hash : Raster → Nat) (pools : Nat → RasterPool) (r : Raster)
    (pool : Nat) :
    RasterHandle.hash hash ⟨some r, some ⟨some pool⟩⟩ pools
      = (.ok ((pools pool).get_hash hash r).1,
          Function.update pools pool ((pools pool).get_hash hash r).2) := rfl

theorem hash_bound_cached (hash : Raster → Nat) (pools : Nat → RasterPool) (r : Raster)
    (pool v : Nat) (hc : (pools pool).raster_hashes_ r.addr = some v) :
    RasterHandle.hash hash ⟨some r, some ⟨some pool⟩⟩ pools = (.ok v, pools) := by
  rw [hash_bound, get_hash_of_cached hash _ r v hc]
  simp

theorem hash_bound_caches (hash : Raster → Nat) (pools : Nat → RasterPool) (r : Raster)
    (pool : Nat) :
    ((RasterHandle.hash hash ⟨some r, some ⟨some pool⟩⟩ pools).2 pool).raster_hashes_ r.addr
      = some ((pools pool).get_hash hash r).1 := by
  rw [hash_bound]
  simp only [Function.update_same]
  exact get_hash_caches_result hash _ r

theorem hash_bound_keeps_entry (hash : Raster → Nat) (pools : Nat → RasterPool) (r : Raster)
    (pool q a v : Nat) (hc : (pools q).raster_hashes_ a = some v) :
    ((RasterHandle.hash hash ⟨some r, some ⟨some pool⟩⟩ pools).2 q).raster_hashes_ a
      = some v := by
  rw [hash_bound]
  by_cases hq : q = pool
  · subst hq
    simp only [Function.update_same]
    exact get_hash_keeps_entry hash _ r a v hc
  · simp only [Function.update_noteq hq]
    exact hc

/-- C11: for two `RasterHandle`s `a` and `b`, each owning a raster and bound to a
pool, `a == b` calls `a.hash()` and then `b.hash()` and returns whether the two
values are equal, and `a != b` returns the negation; both leave the pools as the two
`hash()` calls leave them, and there `a.hash()` and `b.hash()` keep returning those
two values.  Nothing else of the rasters enters the result. -/
theorem eq_iff_hashes_equal (hash : Raster → Nat) (pools : Nat → RasterPool)
    (ra rb : Raster) (pa pb : Nat) :
    ∃ va vb pools1 pools2,
      RasterHandle.hash hash ⟨some ra, some ⟨some pa⟩⟩ pools = (.ok va, pools1) ∧
      RasterHandle.hash hash ⟨some rb, some ⟨some pb⟩⟩ pools1 = (.ok vb, pools2) ∧
      RasterHandle.eq hash ⟨some ra, some ⟨some pa⟩⟩ ⟨some rb, some ⟨some pb⟩⟩ pools
        = (.ok (decide (va = vb)), pools2) ∧
      RasterHandle.ne hash ⟨some ra, some ⟨some pa⟩⟩ ⟨some rb, some ⟨some pb⟩⟩ pools
        = (.ok (!decide (va = vb)), pools2) ∧
      RasterHandle.hash hash ⟨some ra, some ⟨some pa⟩⟩ pools2 = (.ok va, pools2) ∧
      RasterHandle.hash hash ⟨some rb, some ⟨some pb⟩⟩ pools2 = (.ok vb, pools2) := by
  have h1 := hash_bound hash pools ra pa
  have h2 := hash_bound hash
    (Function.update pools pa ((pools pa).get_hash hash ra).2) rb pb
  have hca := hash_bound_caches hash pools ra pa
  rw [h1] at hca
  have hcb := hash_bound_caches hash
    (Function.update pools pa ((pools pa).get_hash hash ra).2) rb pb
  have hca2 := hash_bound_keeps_entry hash
    (Function.update pools pa ((pools pa).get_hash hash ra).2) rb pb pa ra.addr _ hca
  refine ⟨_, _, _, _, h1, h2, ?_, ?_, ?_, ?_⟩
  · simp only [RasterHandle.eq, h1, h2]
  · simp only [RasterHandle.ne, RasterHandle.eq, h1, h2]
  · rw [h2] at hca2
    exact hash_bound_cached hash _ ra pa _ hca2
  · rw [h2] at hcb
    exact hash_bound_cached hash _ rb pb _ hcb

theorem eq_of_inv (hash : Raster → Nat) (w : World) (hI : w.Inv hash) (f g : RasterHandle)
    (hf : f ∈ w.shared) (hg : g ∈ w.shared) :
    ∃ rf rg, f.ptr = some rf ∧ g.ptr = some rg ∧
      (f.eq hash g w.pools).1 = .ok (decide (hash rf = hash rg)) ∧
      (f.ne hash g w.pools).1 = .ok (!decide (hash rf = hash rg)) := by
  have h1 := inv_hash_handle hash w hI f hf
  obtain ⟨rf, hpf, hok⟩ := hash_ok hash w hI f hf
  obtain ⟨rg, hpg, hok'⟩ := hash_ok hash _ h1 g hg
  simp only at hok'
  refine ⟨rf, rg, hpf, hpg, ?_, ?_⟩
  · unfold RasterHandle.eq
    rcases hA : f.hash hash w.pools with ⟨a, pools1⟩
    rw [hA] at hok hok'
    simp only at hok hok'
    subst hok
    rcases hB : g.hash hash pools1 with ⟨b, pools2⟩
    rw [hB] at hok'
    simp only at hok'
    subst hok'
    simp only [hB]
  · unfold RasterHandle.ne RasterHandle.eq
    rcases hA : f.hash hash w.pools with ⟨a, pools1⟩
    rw [hA] at hok hok'
    simp only at hok hok'
    subst hok
    rcases hB : g.hash hash pools1 with ⟨b, pools2⟩
    rw [hB] at hok'
    simp only at hok'
    subst hok'
    simp only [hB]

/-- C12: in every state reachable through the handles, for any two rasters owned by
`RasterHandle`s, `a == b` returns true exactly when `Raster::hash` of the current
content of the one equals `Raster::hash` of the current content of the other, and
`a != b` the negation, whatever was cached in earlier cycles; so when `Raster::hash`
is a function of the content, handles with identical content compare equal. -/
theorem eq_by_content (hash : Raster → Nat) (w : World) (hw : World.Reachable hash w)
    (f g : RasterHandle) (hf : f ∈ w.shared) (hg : g ∈ w.shared) :
    ∃ rf rg, f.ptr = some rf ∧ g.ptr = some rg ∧
      (f.eq hash g w.pools).1 = .ok (decide (hash rf = hash rg)) ∧
      (f.ne hash g w.pools).1 = .ok (!decide (hash rf = hash rg)) ∧
      ((∀ r r' : Raster, r.same_content r' → hash r = hash r') → rf.same_content rg →
        (f.eq hash g w.pools).1 = .ok true) := by
  obtain ⟨rf, rg, hpf, hpg, heq, hne⟩ := eq_of_inv hash w (reachable_inv hash w hw) f g hf hg
  refine ⟨rf, rg, hpf, hpg, heq, hne, ?_⟩
  intro hcontent hsame
  rw [heq, hcontent rf rg hsame]
  simp

theorem twin_reachable :
    World.Reachable sample_hash (World.run sample_hash World.init twin_ops) :=
  .step _ (.freeze 0)
    (.step _ (.write 0 [1, 2])
      (.step _ (.acquire 0 sample_alloc_2 4 4)
        (.step _ (.freeze 0)
          (.step _ (.write 0 [1, 2])
            (.step _ (.acquire 0 sample_alloc 4 4) .init
              ⟨fun _ hm => by simp [World.init] at hm,
                fun _ hf => by simp [World.init] at hf⟩)
            trivial)
          trivial)
        (by
          constructor
          · intro m hm
            have h : m ∈ ([] : List MutableRasterHandle) := hm
            cases h
          · intro f hf r hr
            have h : f ∈ [twin_a] := hf
            rw [List.mem_singleton] at h
            subst h
            injection hr with hr
            subst hr
            decide))
      trivial)
    trivial

/-- Witness for C12: two rasters at different addresses of one pool, frozen with
the same content, compare equal. -/
theorem eq_by_content_witness :
    (twin_a.eq sample_hash twin_b (World.run sample_hash World.init twin_ops).pools).1
      = .ok true := by
  obtain ⟨rf, rg, hpf, hpg, heq, _, _⟩ :=
    eq_by_content sample_hash (World.run sample_hash World.init twin_ops) twin_reachable
      twin_a twin_b (by decide) (by decide)
  injection hpf with hpf
  injection hpg with hpg
  subst hpf
  subst hpg
  rw [heq]
  rfl

/-! ## The deleter -/

/-- C13: a holder returned by a successful `make_raster`, on either path, has its
deleter bound to the pool the call was made on (`this`), and `hash()` on the
`RasterHandle` frozen from it finds that pool and is answered by its `get_hash`. -/
theorem make_raster_binds_this_pool (hash : Raster → Nat) (alloc : Nat → Nat → Raster)
    (this : Nat) (p : RasterPool) (w h : Nat) (ret : RasterHolder) (p' : RasterPool)
    (pools : Nat → RasterPool) (hok : p.make_raster alloc this w h = (.ok ret, p')) :
    ret.deleter.get_raster_pool = some this ∧
    ∃ r, ret.ptr = some r ∧
      (RasterHandle.of_mutable ⟨ret⟩).1.hash hash pools
        = (.ok ((pools this).get_hash hash r).1,
            Function.update pools this ((pools this).get_hash hash r).2) := by
  rcases make_raster_ok_cases alloc this p w h ret p' hok with
    ⟨_, hret, _⟩ | ⟨_, _, r, _, _, _, _, _, hret, _⟩
  · subst hret
    exact ⟨rfl, alloc w h, rfl, rfl⟩
  · subst hret
    exact ⟨rfl, r, rfl, rfl⟩

/-- Witness for C13 on both paths: the recycled 4x4 raster and a newly allocated
one, from the pool at address 1. -/
theorem make_raster_binds_this_pool_witness :
    (⟨some raster_4x4, ⟨some 1⟩⟩ : RasterHolder).deleter.get_raster_pool = some 1 ∧
    (⟨some (sample_alloc 2 3), ⟨some 1⟩⟩ : RasterHolder).deleter.get_raster_pool = some 1 :=
  ⟨(make_raster_binds_this_pool sample_hash sample_alloc 1 pool_one_4x4 4 4
      ⟨some raster_4x4, ⟨some 1⟩⟩ ⟨[], pool_one_4x4.raster_hashes_⟩
      (fun _ => RasterPool.empty) rfl).1,
   (make_raster_binds_this_pool sample_hash sample_alloc 1 RasterPool.empty 2 3
      ⟨some (sample_alloc 2 3), ⟨some 1⟩⟩ RasterPool.empty
      (fun _ => RasterPool.empty) rfl).1⟩

theorem after_set_of_bound (d : RasterDeleter) (q pool : Nat)
    (hd : d.raster_pool_ = some q) : d.after_set_raster_pool pool = d := by
  simp [RasterDeleter.after_set_raster_pool, RasterDeleter.set_raster_pool, hd]

theorem after_calls_of_bound (pools : List Nat) :
    ∀ (d : RasterDeleter) (q : Nat), d.raster_pool_ = some q →
      (d.after_calls pools).raster_pool_ = some q := by
  induction pools with
  | nil =>
    intro d q hd
    exact hd
  | cons pool pools ih =>
    intro d q hd
    simp only [RasterDeleter.after_calls, List.foldl]
    rw [after_set_of_bound d q pool hd]
    exact ih d q hd

/-- C14: `set_raster_pool( pool )` on a deleter that is already bound fails its
assertion and leaves the binding as it was; on an unbound deleter it returns and the
binding is the given pool.  So after any further `set_raster_pool` calls a bound
deleter is still bound to the same pool. -/
theorem set_raster_pool_once (d : RasterDeleter) (pool : Nat) :
    (∀ q, d.raster_pool_ = some q →
      d.set_raster_pool pool = .error .AssertionFailed ∧
      d.after_set_raster_pool pool = d) ∧
    (d.raster_pool_ = none →
      d.set_raster_pool pool = .ok ⟨some pool⟩ ∧
      (d.after_set_raster_pool pool).get_raster_pool = some pool) ∧
    (∀ q pools, d.raster_pool_ = some q → (d.after_calls pools).raster_pool_ = some q) := by
  refine ⟨?_, ?_, ?_⟩
  · intro q hd
    exact ⟨by simp [RasterDeleter.set_raster_pool, hd], after_set_of_bound d q pool hd⟩
  · intro hd
    simp [RasterDeleter.set_raster_pool, RasterDeleter.after_set_raster_pool,
      RasterDeleter.get_raster_pool, hd]
  · intro q pools hd
    exact after_calls_of_bound pools d q hd

/-- Witness for C14: a deleter bound to pool 1 refuses pool 2 and stays bound to
pool 1; an unbound deleter accepts pool 2. -/
theorem set_raster_pool_once_witness :
    ((⟨some 1⟩ : RasterDeleter).set_raster_pool 2 = .error .AssertionFailed ∧
      (⟨some 1⟩ : RasterDeleter).after_set_raster_pool 2 = ⟨some 1⟩) ∧
    (RasterDeleter.unbound.set_raster_pool 2 = .ok ⟨some 2⟩ ∧
      (RasterDeleter.unbound.after_set_raster_pool 2).get_raster_pool = some 2) :=
  ⟨(set_raster_pool_once ⟨some 1⟩ 2).1 1 rfl, (set_raster_pool_once RasterDeleter.unbound 2).2.1 rfl⟩

/-- C15: `RasterDeleter::operator()` with a pool bound does exactly what that pool's
`free_raster` does (for a non-null raster: appended to that pool's free list, its
cache entry erased), changes no other pool and deletes nothing; with no pool bound it
deletes the raster and changes no pool. -/
theorem deleter_call_effect (d : RasterDeleter) (pools : Nat → RasterPool)
    (raster : Option Raster) :
    (∀ q, d.raster_pool_ = some q →
      (d.call pools raster).1 = ((pools q).free_raster raster).1 ∧
      (d.call pools raster).2 q = ((pools q).free_raster raster).2 ∧
      (∀ q', q' ≠ q → (d.call pools raster).2 q' = pools q') ∧
      d.deleted raster = none ∧
      (∀ b, raster = some b →
        ((d.call pools raster).2 q).unused_rasters_
          = (pools q).unused_rasters_ ++ [⟨some b, RasterDeleter.unbound⟩] ∧
        ((d.call pools raster).2 q).raster_hashes_ b.addr = none)) ∧
    (d.raster_pool_ = none →
      d.call pools raster = (.ok (), pools) ∧ d.deleted raster = raster) := by
  constructor
  · intro q hd
    refine ⟨?_, ?_, ?_, ?_, ?_⟩
    · simp [RasterDeleter.call, hd]
    · simp [RasterDeleter.call, hd]
    · intro q' hq'
      simp [RasterDeleter.call, hd, Function.update_noteq hq']
    · simp [RasterDeleter.deleted, hd]
    · rintro b rfl
      simp [RasterDeleter.call, hd, RasterPool.free_raster]
  · intro hd
    simp [RasterDeleter.call, RasterDeleter.deleted, hd]

/-- Witness for C15: a deleter bound to pool 1 puts the 4x4 raster into the free
list of pool 1; an unbound deleter deletes it. -/
theorem deleter_call_effect_witness :
    (((⟨some 1⟩ : RasterDeleter).call (fun _ => RasterPool.empty) (some raster_4x4)).2
        1).unused_rasters_ = [] ++ [⟨some raster_4x4, RasterDeleter.unbound⟩] ∧
    RasterDeleter.unbound.deleted (some raster_4x4) = some raster_4x4 :=
  ⟨((deleter_call_effect ⟨some 1⟩ (fun _ => RasterPool.empty) (some raster_4x4)).1 1
      rfl).2.2.2.2 raster_4x4 rfl |>.1,
   ((deleter_call_effect RasterDeleter.unbound (fun _ => RasterPool.empty)
      (some raster_4x4)).2 rfl).2⟩

/-- C16: `free_raster( nullptr )` fails its assertion, and the pool (free list and
hash cache) is as before. -/
theorem free_raster_null_fatal (p : RasterPool) :
    (p.free_raster none).1 = .error .AssertionFailed ∧
    (p.free_raster none).1 ≠ .ok () ∧
    (p.free_raster none).2.unused_rasters_ = p.unused_rasters_ ∧
    (p.free_raster none).2.raster_hashes_ = p.raster_hashes_ := by
  refine ⟨rfl, ?_, rfl, rfl⟩
  intro hok
  cases hok

/-! ## Releasing twice -/

theorem free_list_nodup (hash : Raster → Nat) (w : World) (hI : w.Inv hash) (pool : Nat) :
    ((w.pools pool).unused_rasters_.map (fun x => x.ptr.map Raster.addr)).Nodup := by
  have hd := hI.distinct pool
  rw [World.keys, List.nodup_append] at hd
  have h1 := hd.1
  have hmap : (w.pools pool).unused_rasters_.map (fun x => (some pool, x.ptr.map Raster.addr))
      = ((w.pools pool).unused_rasters_.map (fun x => x.ptr.map Raster.addr)).map
          (fun a => (some pool, a)) := by
    rw [List.map_map]
    rfl
  rw [hmap] at h1
  exact List.Nodup.of_map _ h1

/-- C17 as stated fails: the 4x4 raster is in the free list, `free_raster` on it
returns normally, and the free list then holds it twice. -/
theorem double_release_accepted :
    (⟨some raster_4x4, RasterDeleter.unbound⟩ : RasterHolder) ∈ pool_one_4x4.unused_rasters_ ∧
    (pool_one_4x4.free_raster (some raster_4x4)).1 = .ok () ∧
    (pool_one_4x4.free_raster (some raster_4x4)).2.unused_rasters_
      = [⟨some raster_4x4, RasterDeleter.unbound⟩, ⟨some raster_4x4, RasterDeleter.unbound⟩] :=
  ⟨by decide, rfl, rfl⟩

/-- C17, amended: `free_raster` does not look for the raster in the free list: on
every pool and every non-null raster it returns normally and appends the raster at
the back; and in every state reachable through the handles, where a raster is
released only by the destruction of the handle that owns it, no pool's free list
holds the same raster twice. -/
theorem double_release_not_detected (hash : Raster → Nat) :
    (∀ (p : RasterPool) (b : Raster),
      (p.free_raster (some b)).1 = .ok () ∧
      (p.free_raster (some b)).2.unused_rasters_
        = p.unused_rasters_ ++ [⟨some b, RasterDeleter.unbound⟩]) ∧
    (∀ w, World.Reachable hash w → ∀ pool,
      ((w.pools pool).unused_rasters_.map (fun x => x.ptr.map Raster.addr)).Nodup) := by
  constructor
  · intro p b
    exact ⟨rfl, rfl⟩
  · intro w hw pool
    exact free_list_nodup hash w (reachable_inv hash w hw) pool

/-- Witness for the amended C17: after a raster has been acquired, frozen, hashed
and dropped, the free list of pool 0 holds it once. -/
theorem double_release_not_detected_witness :
    (((World.run sample_hash World.init released_ops).pools 0).unused_rasters_.map
      (fun x => x.ptr.map Raster.addr)).Nodup :=
  (double_release_not_detected sample_hash).2
    (World.run sample_hash World.init released_ops)
    (.step _ (.drop 0)
      (.step _ (.hash 0)
        (.step _ (.freeze 0)
          (.step _ (.write 0 [1, 2])
            (.step _ (.acquire 0 sample_alloc 4 4) .init
              ⟨fun _ hm => by simp [World.init] at hm,
                fun _ hf => by simp [World.init] at hf⟩)
            trivial)
          trivial)
        trivial)
      trivial) 0

/-! ## First in, first out -/

theorem release_all_unused (bs : List Raster) : ∀ p : RasterPool,
    (p.release_all bs).unused_rasters_
      = p.unused_rasters_ ++ bs.map (fun b => ⟨some b, RasterDeleter.unbound⟩) := by
  induction bs with
  | nil =>
    intro p
    simp [RasterPool.release_all]
  | cons b bs ih =>
    intro p
    have h := ih (p.free_raster (some b)).2
    simp only [RasterPool.release_all, List.foldl] at h ⊢
    rw [h]
    simp [RasterPool.free_raster]

theorem make_rasters_of_queue (alloc : Nat → Nat → Raster) (this : Nat) (w h : Nat)
    (bs : List Raster) : ∀ q : RasterPool,
    q.unused_rasters_ = bs.map (fun b => ⟨some b, RasterDeleter.unbound⟩) →
    (∀ b ∈ bs, b.display_width = w ∧ b.display_height = h) →
    q.make_rasters alloc this w h bs.length
      = (bs.map (fun b => .ok ⟨some b, ⟨some this⟩⟩), ⟨[], q.raster_hashes_⟩) := by
  induction bs with
  | nil =>
    intro q hq _
    cases q with
    | mk u c =>
      simp only [List.map_nil] at hq
      subst hq
      rfl
  | cons b bs ih =>
    intro q hq hsize
    obtain ⟨hw, hh⟩ := hsize b (List.mem_cons_self _ _)
    subst hw
    subst hh
    have hstep := make_raster_of_match alloc this q ⟨some b, RasterDeleter.unbound⟩
      (bs.map (fun b => ⟨some b, RasterDeleter.unbound⟩)) b hq rfl rfl
    have hrest := ih ⟨bs.map (fun b => ⟨some b, RasterDeleter.unbound⟩), q.raster_hashes_⟩ rfl
      (fun b' hb' => hsize b' (List.mem_cons_of_mem _ hb'))
    simp only [List.length_cons, RasterPool.make_rasters, hstep, hrest, List.map_cons]

/-- C18: rasters of one size released in the order `b1, ..., bn` into a pool with an
empty free list come back from `n` calls of `make_raster` in that same order, and
the free list is empty again; and every successful `make_raster` on a non-empty free
list returns the raster at the front and leaves the rest of the list as it was. -/
theorem free_list_fifo (alloc : Nat → Nat → Raster) (this : Nat) (p : RasterPool)
    (bs : List Raster) (w h : Nat) (hempty : p.unused_rasters_ = [])
    (hsize : ∀ b ∈ bs, b.display_width = w ∧ b.display_height = h) :
    (p.release_all bs).unused_rasters_ = bs.map (fun b => ⟨some b, RasterDeleter.unbound⟩) ∧
    ((p.release_all bs).make_rasters alloc this w h bs.length).1
      = bs.map (fun b => .ok ⟨some b, ⟨some this⟩⟩) ∧
    ((p.release_all bs).make_rasters alloc this w h bs.length).2.unused_rasters_ = [] ∧
    (∀ (q q' : RasterPool) (front ret : RasterHolder) (rest : List RasterHolder),
      q.unused_rasters_ = front :: rest → q.make_raster alloc this w h = (.ok ret, q') →
      ret.ptr = front.ptr ∧ q'.unused_rasters_ = rest) := by
  have hq : (p.release_all bs).unused_rasters_
      = bs.map (fun b => ⟨some b, RasterDeleter.unbound⟩) := by
    rw [release_all_unused, hempty, List.nil_append]
  have hrun := make_rasters_of_queue alloc this w h bs _ hq hsize
  refine ⟨hq, by rw [hrun], by rw [hrun], ?_⟩
  intro q q' front ret rest hfront hok
  rcases make_raster_ok_cases alloc this q w h ret q' hok with
    ⟨hnil, _, _⟩ | ⟨front', rest', r, hcons, hf, _, _, _, hret, hq'⟩
  · rw [hnil] at hfront
    cases hfront
  · rw [hcons] at hfront
    injection hfront with h1 h2
    subst h1
    subst h2
    subst hret
    subst hq'
    exact ⟨hf.symm, rfl⟩

/-- Witness for C18: three 4x4 rasters released into the empty pool come back in
the order of their release. -/
theorem free_list_fifo_witness :
    ((RasterPool.empty.release_all three_rasters).make_rasters sample_alloc 1 4 4 3).1
      = three_rasters.map (fun b => .ok ⟨some b, ⟨some 1⟩⟩) :=
  (free_list_fifo sample_alloc 1 RasterPool.empty three_rasters 4 4 rfl (by decide)).2.1

/-! ## Freezing -/

/-- C19: moving a mutable handle that owns a raster into a `RasterHandle` gives a
handle on the same raster with the same deleter (hence the same pool binding) and
leaves the mutable handle's holder empty, so that destroying it releases nothing;
the conversion changes no pool. -/
theorem freeze_transfers_ownership (hash : Raster → Nat) (m : MutableRasterHandle)
    (r : Raster) (hr : m.raster_.ptr = some r) :
    (RasterHandle.of_mutable m).1.ptr = some r ∧
    (RasterHandle.of_mutable m).1.deleter = some m.raster_.deleter ∧
    (RasterHandle.of_mutable m).2.raster_.ptr = none ∧
    (∀ pools, (RasterHandle.of_mutable m).2.raster_.destroy pools = (.ok (), pools)) ∧
    (∀ (w : World) (i : Nat), (w.step hash (.freeze i)).pools = w.pools) := by
  refine ⟨?_, ?_, rfl, fun _ => rfl, ?_⟩
  · simp [RasterHandle.of_mutable, MutableRasterHandle.get_holder, hr]
  · simp [RasterHandle.of_mutable, MutableRasterHandle.get_holder, hr]
  · intro w i
    simp only [World.step]
    cases w.mutables[i]? <;> rfl

/-- Witness for C19: the mutable handle on the 4x4 raster bound to pool 1. -/
theorem freeze_transfers_ownership_witness :
    (RasterHandle.of_mutable sample_mutable).1 = ⟨some raster_4x4, some ⟨some 1⟩⟩ ∧
    (RasterHandle.of_mutable sample_mutable).2.raster_.ptr = none :=
  ⟨by
    have h := freeze_transfers_ownership sample_hash sample_mutable raster_4x4 rfl
    exact congrArg₂ RasterHandle.mk h.1 h.2.1,
   (freeze_transfers_ownership sample_hash sample_mutable raster_4x4 rfl).2.2.1⟩

/-! ## The binding at the end of `make_raster` -/

theorem WF_calls (hash : Raster → Nat) (this : Nat) (cs : List PoolCall) :
    ∀ p : RasterPool, p.WF → (p.calls hash this cs).WF := by
  induction cs with
  | nil =>
    intro p hp
    exact hp
  | cons c cs ih =>
    intro p hp
    refine ih (p.call hash this c) ?_
    cases c with
    | make_raster alloc w h => exact WF_make_raster alloc this p hp w h
    | get_hash raster =>
      simp only [RasterPool.call, get_hash_pool]
      exact hp
    | free_raster raster => exact WF_free_raster p hp raster

theorem make_raster_no_assertion (alloc : Nat → Nat → Raster) (this : Nat) (p : RasterPool)
    (w h : Nat) (hp : p.WF) : (p.make_raster alloc this w h).1 ≠ .error .AssertionFailed := by
  intro hfail
  by_cases hm : p.front_mismatch w h
  · obtain ⟨front, rest, r, hq, hf, hne⟩ := hm
    rw [make_raster_of_mismatch alloc this p w h front rest r hq hf hne] at hfail
    cases hfail
  · obtain ⟨ret, _, hok, _⟩ := make_raster_ok_of_no_mismatch alloc this p w h hp hm
    rw [hfail] at hok
    cases hok

/-- C20: in every pool state reached from the empty pool by calls of `make_raster`,
`get_hash` and `free_raster`, every holder in the free list has an unbound deleter,
as has the holder of a new allocation, so `make_raster` never fails the assertion of
`set_raster_pool`; in particular a raster handed out by this pool, released and
asked for again is bound to the pool anew. -/
theorem bind_never_fails (hash : Raster → Nat) (alloc : Nat → Nat → Raster) (this : Nat)
    (cs : List PoolCall) (w h : Nat) :
    (∀ x ∈ (RasterPool.empty.calls hash this cs).unused_rasters_,
      x.deleter = RasterDeleter.unbound) ∧
    RasterDeleter.unbound.set_raster_pool this = .ok ⟨some this⟩ ∧
    ((RasterPool.empty.calls hash this cs).make_raster alloc this w h).1
      ≠ .error .AssertionFailed ∧
    (∀ b : Raster, b.display_width = w → b.display_height = h →
      (RasterPool.empty.calls hash this cs).unused_rasters_ = [] →
      (((RasterPool.empty.calls hash this cs).free_raster (some b)).2.make_raster
          alloc this w h).1 = .ok ⟨some b, ⟨some this⟩⟩) := by
  have hwf := WF_calls hash this cs RasterPool.empty WF_empty
  refine ⟨fun x hx => (hwf x hx).2, rfl, make_raster_no_assertion alloc this _ w h hwf, ?_⟩
  intro b hw hh hempty
  subst hw
  subst hh
  rw [make_raster_of_match alloc this _ ⟨some b, RasterDeleter.unbound⟩ [] b
    (by simp [RasterPool.free_raster, hempty]) rfl rfl]

/-- Witness for C20: the raster handed out by the pool at address 1 and released
again is handed out a second time, bound to that pool. -/
theorem bind_never_fails_witness :
    ((RasterPool.empty.calls sample_hash 1 recycle_calls).make_raster sample_alloc 1 4 4).1
      = .ok ⟨some (sample_alloc 4 4), ⟨some 1⟩⟩ ∧
    ((RasterPool.empty.calls sample_hash 1 recycle_calls).make_raster sample_alloc 1 4 4).1
      ≠ .error .AssertionFailed :=
  ⟨rfl, (bind_never_fails sample_hash sample_alloc 1 recycle_calls 4 4).2.2.1⟩

end Alfalfa
